import Mathlib

/-!
Shallow embedding of the authentication core of the go-starter web kit
(packages `internal/server`, `internal/postgres`, `internal/user` and the
SQL schema in `db`), together with proofs about the token codec, the OAuth
flow tracker, the user/identity resolver, the web session manager, the API
refresh-token rotation protocol and the auth rate limiter.

Machine integers are modelled as `Nat` with explicit reduction modulo
`2 ^ 32` where Go's `uint32` arithmetic wraps; `time.Time` values and
`time.Duration` values are modelled as `Int` ticks (Go nanoseconds);
database rows are lists of records; fallible operations return `Option`
or `Except`.
-/

set_option maxRecDepth 8192

namespace GoStarter

/-! ## Token codec: SHA-256 (Go `crypto/sha256.Sum256`) -/

/-- One 32-bit word reduction: Go `uint32` arithmetic wraps modulo `2^32`. -/
def w32 (x : Nat) : Nat := x % 4294967296

/-- Right rotation of a 32-bit word by `n` bits. -/
def rotr32 (x n : Nat) : Nat :=
  ((x >>> n) ||| (x <<< (32 - n))) % 4294967296

/-- SHA-256 round constants (FIPS 180-4), in decimal. -/
def sha256K : List Nat :=
  [1116352408, 1899447441, 3049323471, 3921009573, 961987163, 1508970993,
   2453635748, 2870763221, 3624381080, 310598401, 607225278, 1426881987,
   1925078388, 2162078206, 2614888103, 3248222580, 3835390401, 4022224774,
   264347078, 604807628, 770255983, 1249150122, 1555081692, 1996064986,
   2554220882, 2821834349, 2952996808, 3210313671, 3336571891, 3584528711,
   113926993, 338241895, 666307205, 773529912, 1294757372, 1396182291,
   1695183700, 1986661051, 2177026350, 2456956037, 2730485921, 2820302411,
   3259730800, 3345764771, 3516065817, 3600352804, 4094571909, 275423344,
   430227734, 506948616, 659060556, 883997877, 958139571, 1322822218,
   1537002063, 1747873779, 1955562222, 2024104815, 2227730452, 2361852424,
   2428436474, 2756734187, 3204031479, 3329325298]

/-- SHA-256 working state: eight 32-bit words. -/
structure Sha256State where
  h0 : Nat
  h1 : Nat
  h2 : Nat
  h3 : Nat
  h4 : Nat
  h5 : Nat
  h6 : Nat
  h7 : Nat
deriving Repr, DecidableEq

/-- SHA-256 initial hash value (FIPS 180-4), in decimal. -/
def sha256InitState : Sha256State :=
  ⟨1779033703, 3144134277, 1013904242, 2773480762,
   1359893119, 2600822924, 528734635, 1541459225⟩

/-- Message-schedule small sigma 0. -/
def ssig0 (x : Nat) : Nat := (rotr32 x 7) ^^^ (rotr32 x 18) ^^^ (x >>> 3)

/-- Message-schedule small sigma 1. -/
def ssig1 (x : Nat) : Nat := (rotr32 x 17) ^^^ (rotr32 x 19) ^^^ (x >>> 10)

/-- Compression big sigma 0. -/
def bsig0 (x : Nat) : Nat := (rotr32 x 2) ^^^ (rotr32 x 13) ^^^ (rotr32 x 22)

/-- Compression big sigma 1. -/
def bsig1 (x : Nat) : Nat := (rotr32 x 6) ^^^ (rotr32 x 11) ^^^ (rotr32 x 25)

/-- Next message-schedule word from the 16 most recent words (most recent first). -/
def wNext (ws : List Nat) : Nat :=
  w32 (ssig1 (ws.getD 1 0) + ws.getD 6 0 + ssig0 (ws.getD 14 0) + ws.getD 15 0)

/-- Extend the message schedule; the accumulator holds words most recent first. -/
def extendSchedule : Nat → List Nat → List Nat
  | 0, ws => ws
  | n + 1, ws => extendSchedule n (wNext ws :: ws)

/-- One SHA-256 compression round (`ch` and `maj` inlined). -/
def sha256Round (st : Sha256State) (kw : Nat × Nat) : Sha256State :=
  let t1 := w32 (st.h7 + bsig1 st.h4 +
    ((st.h4 &&& st.h5) ^^^ ((st.h4 ^^^ 0xffffffff) &&& st.h6)) + kw.1 + kw.2)
  let t2 := w32 (bsig0 st.h0 + ((st.h0 &&& st.h1) ^^^ (st.h0 &&& st.h2) ^^^ (st.h1 &&& st.h2)))
  ⟨w32 (t1 + t2), st.h0, st.h1, st.h2, w32 (st.h3 + t1), st.h4, st.h5, st.h6⟩

/-- Big-endian 32-bit words of a byte sequence (four bytes per word). -/
def blockWords : List Nat → List Nat
  | b0 :: b1 :: b2 :: b3 :: rest => ((b0 <<< 24) ||| (b1 <<< 16) ||| (b2 <<< 8) ||| b3) :: blockWords rest
  | _ => []

/-- Group a word sequence into 16-word (64-byte) blocks. -/
def wordBlocks : List Nat → List (List Nat)
  | w0 :: w1 :: w2 :: w3 :: w4 :: w5 :: w6 :: w7 :: w8 :: w9 :: w10 :: w11 :: w12 :: w13 :: w14 :: w15 :: rest =>
      [w0, w1, w2, w3, w4, w5, w6, w7, w8, w9, w10, w11, w12, w13, w14, w15] :: wordBlocks rest
  | _ => []

/-- Process one 16-word block: schedule expansion, 64 rounds, state addition. -/
def sha256Block (st : Sha256State) (w16 : List Nat) : Sha256State :=
  let sched := (extendSchedule 48 w16.reverse).reverse
  let r := (sched.zip sha256K).foldl sha256Round st
  ⟨w32 (st.h0 + r.h0), w32 (st.h1 + r.h1), w32 (st.h2 + r.h2), w32 (st.h3 + r.h3),
   w32 (st.h4 + r.h4), w32 (st.h5 + r.h5), w32 (st.h6 + r.h6), w32 (st.h7 + r.h7)⟩

/-- SHA-256 padding: append `0x80`, zeros to 56 mod 64, then the 64-bit big-endian bit length. -/
def sha256Pad (msg : List Nat) : List Nat :=
  let len := msg.length
  let zeros := (120 - ((len + 1) % 64)) % 64
  msg ++ [0x80] ++ List.replicate zeros 0 ++
    ([56, 48, 40, 32, 24, 16, 8, 0].map fun s => ((len * 8) >>> s) % 256)

/-- Big-endian bytes of a 32-bit word. -/
def wordBytes (x : Nat) : List Nat :=
  [(x >>> 24) % 256, (x >>> 16) % 256, (x >>> 8) % 256, x % 256]

/-- SHA-256 digest of a byte sequence, as 32 bytes (Go `crypto/sha256.Sum256`). -/
def sha256 (msg : List Nat) : List Nat :=
  let fin := (wordBlocks (blockWords (sha256Pad msg))).foldl sha256Block sha256InitState
  wordBytes fin.h0 ++ wordBytes fin.h1 ++ wordBytes fin.h2 ++ wordBytes fin.h3 ++
  wordBytes fin.h4 ++ wordBytes fin.h5 ++ wordBytes fin.h6 ++ wordBytes fin.h7

/-! ## Token codec: hex, UTF-8, `strings.TrimSpace`, `hashToken`, base64url -/

/-- Lowercase hexadecimal digit (Go `encoding/hex` alphabet `0123456789abcdef`). -/
def hexDigit (n : Nat) : Char := if n < 10 then Char.ofNat (48 + n) else Char.ofNat (87 + n)

/-- Lowercase hex encoding of bytes (Go `encoding/hex.EncodeToString`). -/
def hexEncode (bs : List Nat) : String :=
  ⟨bs.foldr (fun b acc => hexDigit ((b >>> 4) % 16) :: hexDigit (b % 16) :: acc) []⟩

/-- UTF-8 encoding of one character (Go `[]byte(string)` conversion). -/
def utf8EncodeChar (c : Char) : List Nat :=
  let n := c.toNat
  if n < 0x80 then [n]
  else if n < 0x800 then [0xc0 ||| (n >>> 6), 0x80 ||| (n &&& 0x3f)]
  else if n < 0x10000 then
    [0xe0 ||| (n >>> 12), 0x80 ||| ((n >>> 6) &&& 0x3f), 0x80 ||| (n &&& 0x3f)]
  else
    [0xf0 ||| (n >>> 18), 0x80 ||| ((n >>> 12) &&& 0x3f),
     0x80 ||| ((n >>> 6) &&& 0x3f), 0x80 ||| (n &&& 0x3f)]

/-- UTF-8 bytes of a string. -/
def utf8Encode (s : String) : List Nat :=
  s.data.foldr (fun c acc => utf8EncodeChar c ++ acc) []

/-- Go `unicode.IsSpace`: `\t \n \v \f \r`, space, NEL, NBSP, and the
Unicode `White_Space` code points above Latin-1. -/
def goIsSpace (c : Char) : Bool :=
  let n := c.toNat
  decide (n = 9 ∨ n = 10 ∨ n = 11 ∨ n = 12 ∨ n = 13 ∨ n = 32 ∨ n = 0x85 ∨ n = 0xa0 ∨
    n = 0x1680 ∨ (0x2000 ≤ n ∧ n ≤ 0x200a) ∨ n = 0x2028 ∨ n = 0x2029 ∨
    n = 0x202f ∨ n = 0x205f ∨ n = 0x3000)

/-- Drop leading white space (the left half of Go `strings.TrimSpace`). -/
def trimLeftSpace (l : List Char) : List Char := l.dropWhile goIsSpace

/-- Drop trailing white space (the right half of Go `strings.TrimSpace`). -/
def trimRightSpace (l : List Char) : List Char := (l.reverse.dropWhile goIsSpace).reverse

/-- Go `strings.TrimSpace`: remove leading and trailing white space. -/
def goTrimSpace (s : String) : String := ⟨trimRightSpace (trimLeftSpace s.data)⟩

/-- Storage/lookup key for raw secrets (`internal/server/web_auth_session.go`:
`hashToken(raw) = hex(sha256(TrimSpace(raw)))`). -/
def hashToken (raw : String) : String :=
  hexEncode (sha256 (utf8Encode (goTrimSpace raw)))

/-- Base64url alphabet character (Go `base64.URLEncoding` alphabet
`A-Z a-z 0-9 - _`), for a 6-bit value. -/
def b64Char (n : Nat) : Char :=
  if n < 26 then Char.ofNat (65 + n)
  else if n < 52 then Char.ofNat (97 + (n - 26))
  else if n < 62 then Char.ofNat (48 + (n - 52))
  else if n = 62 then '-' else '_'

/-- Go `base64.RawURLEncoding.EncodeToString`: each 3-byte group becomes four
alphabet characters; a trailing 2-byte group three, a trailing single byte
two; no `=` padding. -/
def b64EncodeChars : List Nat → List Char
  | b0 :: b1 :: b2 :: rest =>
      let n := (b0 <<< 16) ||| (b1 <<< 8) ||| b2
      b64Char ((n >>> 18) &&& 63) :: b64Char ((n >>> 12) &&& 63) ::
      b64Char ((n >>> 6) &&& 63) :: b64Char (n &&& 63) :: b64EncodeChars rest
  | [b0, b1] =>
      let n := (b0 <<< 16) ||| (b1 <<< 8)
      [b64Char ((n >>> 18) &&& 63), b64Char ((n >>> 12) &&& 63), b64Char ((n >>> 6) &&& 63)]
  | [b0] =>
      let n := b0 <<< 16
      [b64Char ((n >>> 18) &&& 63), b64Char ((n >>> 12) &&& 63)]
  | [] => []

/-- Unpadded base64url encoding of a byte sequence. -/
def base64RawURLEncode (bs : List Nat) : String := ⟨b64EncodeChars bs⟩

/-- PKCE S256 challenge (`internal/server/web_oauth_verifier.go`:
`oauthCodeChallenge(verifier) = base64.RawURLEncoding(sha256(verifier))`). -/
def oauthCodeChallenge (verifier : String) : String :=
  base64RawURLEncode (sha256 (utf8Encode verifier))

/-! ## Spec-side base64url (for the C9 refinement): bit-stream definition.
"base64url(SHA-256(verifier)), no padding": write the digest as a stream of
bits (each byte big-endian), cut it into 6-bit groups, pad the final partial
group with zero bits, and map each group through the base64url alphabet. -/

/-- The eight bits of a byte, most significant first. -/
def byteBits (b : Nat) : List Nat :=
  [(b >>> 7) &&& 1, (b >>> 6) &&& 1, (b >>> 5) &&& 1, (b >>> 4) &&& 1,
   (b >>> 3) &&& 1, (b >>> 2) &&& 1, (b >>> 1) &&& 1, b &&& 1]

/-- The bit stream of a byte sequence. -/
def bitsOfBytes : List Nat → List Nat
  | [] => []
  | b :: t => byteBits b ++ bitsOfBytes t

/-- Values of the 6-bit groups of a bit stream; a final partial group is
padded with zero bits on the right. -/
def sixBitGroups : List Nat → List Nat
  | x0 :: x1 :: x2 :: x3 :: x4 :: x5 :: rest =>
      (x0 * 32 + x1 * 16 + x2 * 8 + x3 * 4 + x4 * 2 + x5) :: sixBitGroups rest
  | [] => []
  | rest => [(rest.foldl (fun a x => 2 * a + x) 0) <<< (6 - rest.length)]

/-- Spec-side unpadded base64url: 6-bit groups of the bit stream mapped
through the alphabet, no padding characters. -/
def base64urlBitsNoPad (bs : List Nat) : String :=
  ⟨(sixBitGroups (bitsOfBytes bs)).map b64Char⟩

/-- Modelled from the spec: `codeChallenge(verifier)`: PKCE S256 challenge =
base64url(SHA-256(verifier)), no padding. -/
def codeChallengeSpec (verifier : String) : String :=
  base64urlBitsNoPad (sha256 (utf8Encode verifier))

/-! ## Data model (`internal/user/user.go` and the SQL schema in `db`).
Nullable text columns are modelled as `""` exactly as the Go store scans
them (`coalesce(col, '')`); nullable timestamps as `Option Int`. -/

/-- A user row (`users` table / `user.User`). -/
structure User where
  id : Nat
  email : String
  displayName : String
  avatarURL : String
  createdAt : Int
  updatedAt : Int
deriving Repr, DecidableEq

/-- An identity row (`user_identities` table / `user.Identity`); the schema
declares `(provider, provider_user_id)` unique. -/
structure Identity where
  id : Nat
  userId : Nat
  provider : String
  providerUserId : String
  providerEmail : String
  providerName : String
  providerHandle : String
  avatarURL : String
deriving Repr, DecidableEq

/-- A verified, normalized social profile (`user.SocialProfile`). -/
structure SocialProfile where
  provider : String
  providerUserId : String
  email : String
  emailVerified : Bool
  name : String
  avatarURL : String
  username : String
deriving Repr, DecidableEq

/-- A web session row (`user_sessions` table / `user.Session`); the schema
declares `token_hash` unique. -/
structure Session where
  id : Nat
  userId : Nat
  tokenHash : String
  expiresAt : Int
  createdAt : Int
  lastSeenAt : Int
  ip : String
  userAgent : String
  revokedAt : Option Int
deriving Repr, DecidableEq

/-- The relational state visible to the user/identity resolver and the web
session manager. `nextUserId`/`nextIdentityId` model the generated-identity
columns. -/
structure AuthDB where
  users : List User
  identities : List Identity
  sessions : List Session
  nextUserId : Nat
  nextIdentityId : Nat
deriving Repr, DecidableEq

/-- Errors of the `user` package (`ErrNotFound`, `ErrEmailConflict`,
`ErrIdentityConflict`) plus the `SocialProfile.Validate` failure. -/
inductive UserErr where
  | notFound
  | emailConflict
  | identityConflict
  | invalidInput
deriving Repr, DecidableEq

/-- Go `strings.ToLower`, restricted to the ASCII letters (the only case
mapping exercised by providers and e-mail addresses in this core). -/
def goToLower (s : String) : String :=
  ⟨s.data.map fun c => if 65 ≤ c.toNat ∧ c.toNat ≤ 90 then Char.ofNat (c.toNat + 32) else c⟩

/-- Provider names are normalized with `TrimSpace(ToLower(...))` throughout
the store. -/
def normProvider (p : String) : String := goTrimSpace (goToLower p)

/-- E-mail addresses are normalized with `TrimSpace(ToLower(...))` throughout
the store. -/
def normEmail (e : String) : String := goTrimSpace (goToLower e)

/-! ## Persistence operations (`internal/postgres`, `UserAuthStore`) -/

/-- `FindByIdentity`: look up the user joined through an identity row by
`(provider, provider_user_id)`; `ErrNotFound` (here `none`) when either the
identity or the joined user row is missing. -/
def FindByIdentity (db : AuthDB) (provider providerUserId : String) : Option User :=
  match db.identities.find? fun i =>
      i.provider == normProvider provider && i.providerUserId == goTrimSpace providerUserId with
  | none => none
  | some i => db.users.find? fun u => u.id == i.userId

/-- `FindByEmail`: empty normalized e-mail is `ErrNotFound` outright;
otherwise look up `users.email`. -/
def FindByEmail (db : AuthDB) (email : String) : Option User :=
  let e := normEmail email
  if e == "" then none
  else db.users.find? fun u => u.email == e

/-- `FindByID`: look up a user row by id. -/
def FindByID (db : AuthDB) (id : Nat) : Option User :=
  db.users.find? fun u => u.id == id

/-- `CreateUserWithIdentity`: validate the profile, check the e-mail
conflict, then insert the user row and its identity row in one transaction;
a unique violation on `(provider, provider_user_id)` rolls the transaction
back and maps to `ErrIdentityConflict`. -/
def CreateUserWithIdentity (db : AuthDB) (profile : SocialProfile) :
    Except UserErr (AuthDB × User) :=
  if goTrimSpace profile.provider == "" || goTrimSpace profile.providerUserId == "" then
    .error .invalidInput
  else
    let email := normEmail profile.email
    if email ≠ "" ∧ db.users.any (fun u => u.email == email) then
      .error .emailConflict
    else
      let displayName :=
        if goTrimSpace profile.name ≠ "" then goTrimSpace profile.name
        else if goTrimSpace profile.username ≠ "" then goTrimSpace profile.username
        else "User"
      let newUser : User :=
        { id := db.nextUserId, email := email, displayName := displayName,
          avatarURL := goTrimSpace profile.avatarURL, createdAt := 0, updatedAt := 0 }
      if db.identities.any (fun i =>
          i.provider == normProvider profile.provider &&
          i.providerUserId == goTrimSpace profile.providerUserId) then
        .error .identityConflict
      else
        let newIdentity : Identity :=
          { id := db.nextIdentityId, userId := newUser.id,
            provider := normProvider profile.provider,
            providerUserId := goTrimSpace profile.providerUserId,
            providerEmail := email, providerName := goTrimSpace profile.name,
            providerHandle := goTrimSpace profile.username,
            avatarURL := goTrimSpace profile.avatarURL }
        .ok ({ db with users := db.users ++ [newUser],
                       identities := db.identities ++ [newIdentity],
                       nextUserId := db.nextUserId + 1,
                       nextIdentityId := db.nextIdentityId + 1 }, newUser)

/-- `UpdateUserFromProfile`: refresh display name/avatar on the user row
(overwrite only when the trimmed fresh value is non-empty) and overwrite the
provider columns on the matching identity row. -/
def UpdateUserFromProfile (db : AuthDB) (userID : Nat) (profile : SocialProfile) : AuthDB :=
  let users := db.users.map fun u =>
    if u.id == userID then
      { u with
        displayName := if goTrimSpace profile.name ≠ "" then goTrimSpace profile.name
                       else u.displayName,
        avatarURL := if goTrimSpace profile.avatarURL ≠ "" then goTrimSpace profile.avatarURL
                     else u.avatarURL }
    else u
  let identities := db.identities.map fun i =>
    if i.userId == userID && i.provider == normProvider profile.provider then
      { i with providerEmail := normEmail profile.email,
               providerName := goTrimSpace profile.name,
               providerHandle := goTrimSpace profile.username,
               avatarURL := goTrimSpace profile.avatarURL }
    else i
  { db with users := users, identities := identities }

/-- `FindSessionAndUserByTokenHash`: look up the session row by token hash
joined with its user row. -/
def FindSessionAndUserByTokenHash (db : AuthDB) (tokenHash : String) :
    Option (Session × User) :=
  match db.sessions.find? (fun s => s.tokenHash == goTrimSpace tokenHash) with
  | none => none
  | some s =>
    match db.users.find? (fun u => u.id == s.userId) with
    | none => none
    | some u => some (s, u)

/-- `DeleteSessionByTokenHash`: delete every session row matching the hash. -/
def DeleteSessionByTokenHash (db : AuthDB) (tokenHash : String) : AuthDB :=
  { db with sessions := db.sessions.filter fun s => !(s.tokenHash == goTrimSpace tokenHash) }

/-! ## Web session manager (`internal/server/web_auth_session.go`,
`internal/server/handler.go`) -/

/-- `sessionTokenFromRequest`: the trimmed session cookie value, `""` when
the cookie is absent. -/
def sessionTokenFromRequest (cookie : Option String) : String :=
  match cookie with
  | some v => goTrimSpace v
  | none => ""

/-- The 10-minute last-seen freshness threshold of `loadSession`, in
nanoseconds. -/
def sessionTouchIdle : Int := 600000000000

/-- Outcome of the `loadSession` middleware for one request: proceed
anonymously (optionally instructing the client to clear the stale cookie),
or proceed authenticated (optionally touching `last_seen_at`). -/
inductive LoadSessionOutcome where
  | anonymous (clearCookie : Bool)
  | authenticated (u : User) (touch : Bool)
deriving Repr, DecidableEq

/-- `loadSession`: request-scoped session validation. A missing/blank cookie
proceeds anonymously; a hash miss, a revoked session, or `now.After(expiresAt)`
clears the cookie and proceeds anonymously; otherwise the user is attached
to the request (touching `last_seen_at` when idle for 10 minutes or more). -/
def loadSession (db : AuthDB) (cookie : Option String) (now : Int) : LoadSessionOutcome :=
  let token := sessionTokenFromRequest cookie
  if token == "" then .anonymous false
  else
    match FindSessionAndUserByTokenHash db (hashToken token) with
    | none => .anonymous true
    | some (sess, currentUser) =>
      if sess.revokedAt ≠ none ∨ now > sess.expiresAt then .anonymous true
      else .authenticated currentUser (decide (now - sess.lastSeenAt ≥ sessionTouchIdle))

/-- Response-visible effects of the `logout` handler. -/
structure LogoutResponse where
  cookieCleared : Bool
  redirect : String
deriving Repr, DecidableEq

/-- `logout`: delete the session row matching the presented token's hash
(only when a token was presented at all), clear the cookie, redirect to the
login page. Storage errors are ignored (`_ =`), so the handler never fails. -/
def logout (db : AuthDB) (cookie : Option String) : AuthDB × LogoutResponse :=
  let token := sessionTokenFromRequest cookie
  let db' := if token ≠ "" then DeleteSessionByTokenHash db (hashToken token) else db
  (db', { cookieCleared := true, redirect := "/auth/login" })

/-- `findOrCreateSocialUser` (`internal/server/request_helpers.go`): link by
identity and refresh the profile, or detect a cross-provider e-mail conflict,
or create user+identity. Returns the possibly-updated database alongside the
result. -/
def findOrCreateSocialUser (db : AuthDB) (profile : SocialProfile) :
    AuthDB × Except UserErr User :=
  match FindByIdentity db profile.provider profile.providerUserId with
  | some currentUser =>
    let db' := UpdateUserFromProfile db currentUser.id profile
    match FindByID db' currentUser.id with
    | some u => (db', .ok u)
    | none => (db', .error .notFound)
  | none =>
    if profile.emailVerified ∧ goTrimSpace profile.email ≠ "" then
      match FindByEmail db profile.email with
      | some _ => (db, .error .emailConflict)
      | none =>
        match CreateUserWithIdentity db profile with
        | .ok (db', u) => (db', .ok u)
        | .error e => (db, .error e)
    else
      match CreateUserWithIdentity db profile with
      | .ok (db', u) => (db', .ok u)
      | .error e => (db, .error e)

/-! ## API refresh tokens (`api_refresh_tokens` table, `UserAuthStore`
rotation, `internal/server/api_refresh_tokens.go`) -/

/-- An API refresh-token row (`api_refresh_tokens` table /
`user.APIRefreshToken`); the schema declares `token_hash` unique. -/
structure APIRefreshToken where
  id : Nat
  userId : Nat
  familyId : String
  tokenHash : String
  expiresAt : Int
  createdAt : Int
  lastUsedAt : Option Int
  revokedAt : Option Int
  replacedByTokenId : Option Nat
deriving Repr, DecidableEq

/-- The refresh-token table plus its generated-identity counter. -/
structure ApiTokenStore where
  rows : List APIRefreshToken
  nextId : Nat
deriving Repr, DecidableEq

/-- Result record of the store-level rotation (`APIRotateRefreshTokenResult`). -/
structure APIRotateRefreshTokenResult where
  userId : Nat
  familyId : String
  reuseDetected : Bool
  authorized : Bool
deriving Repr, DecidableEq

/-- A row is rotation-active when it is neither revoked nor replaced. -/
def tokenActive (r : APIRefreshToken) : Prop :=
  r.revokedAt = none ∧ r.replacedByTokenId = none

instance (r : APIRefreshToken) : Decidable (tokenActive r) := by
  unfold tokenActive; infer_instance

/-- The per-row effect of the family-revocation update
(`set revoked_at = coalesce(revoked_at, $2) where family_id = $1`), used by
both the reuse branch of the rotation and `RevokeAPIRefreshTokenFamily`. -/
def revokeFamilyRow (familyID : String) (now : Int) (r : APIRefreshToken) : APIRefreshToken :=
  if r.familyId == familyID then { r with revokedAt := some (r.revokedAt.getD now) } else r

/-- `UserAuthStore.RotateAPIRefreshToken`: select the presented row by hash
(for update); a miss is unauthorized with no reuse signal; a revoked,
replaced or expired row revokes the whole family (`coalesce(revoked_at, now)`)
and reports reuse; otherwise insert the replacement row and mark the old row
revoked/replaced in the same transaction. The `token_hash` unique constraint
makes a duplicate-hash insert fail and roll the transaction back. -/
def RotateAPIRefreshToken (st : ApiTokenStore) (oldTokenHash : String)
    (newToken : APIRefreshToken) (now : Int) :
    Except String (ApiTokenStore × APIRotateRefreshTokenResult) :=
  match st.rows.find? (fun r => r.tokenHash == goTrimSpace oldTokenHash) with
  | none => .ok (st, ⟨0, "", false, false⟩)
  | some current =>
    if current.revokedAt ≠ none ∨ current.replacedByTokenId ≠ none ∨ now > current.expiresAt then
      .ok ({ st with rows := st.rows.map (revokeFamilyRow current.familyId now) },
           ⟨current.userId, current.familyId, true, false⟩)
    else
      let userID := if newToken.userId == 0 then current.userId else newToken.userId
      let familyID := if goTrimSpace newToken.familyId == "" then current.familyId
                      else goTrimSpace newToken.familyId
      if st.rows.any (fun r => r.tokenHash == goTrimSpace newToken.tokenHash) then
        .error "insert rotated api refresh token: unique violation"
      else
        let newRow : APIRefreshToken :=
          { id := st.nextId, userId := userID, familyId := familyID,
            tokenHash := goTrimSpace newToken.tokenHash, expiresAt := newToken.expiresAt,
            createdAt := now, lastUsedAt := none, revokedAt := none,
            replacedByTokenId := none }
        let rows := (st.rows.map fun r =>
          if r.id == current.id then
            { r with lastUsedAt := some now, revokedAt := some now,
                     replacedByTokenId := some st.nextId }
          else r) ++ [newRow]
        .ok ({ rows := rows, nextId := st.nextId + 1 },
             ⟨current.userId, current.familyId, false, true⟩)

/-- `UserAuthStore.RevokeAPIRefreshTokenFamily`: idempotently mark every row
of the family revoked (`coalesce(revoked_at, now)`). -/
def RevokeAPIRefreshTokenFamily (st : ApiTokenStore) (familyID : String) (now : Int) :
    ApiTokenStore :=
  { st with rows := st.rows.map (revokeFamilyRow (goTrimSpace familyID) now) }

/-- The refresh-token half of `apiTokenResponse` (the JWT access-token half
is issued by `issueAPIAccessToken` and is outside the rotation claims). -/
structure ApiTokenResponse where
  tokenType : String
  refreshToken : String
  refreshTokenExpiresAt : Int
deriving Repr, DecidableEq

/-- Handler-level `rotateAPIRefreshToken`: hash the presented token, run the
store rotation with a freshly generated raw token (`newRefreshToken`, the
entropy input), revoke the family again on a reuse signal, and answer
`unauthorized` or the rotated pair. A store error (rolled-back transaction)
leaves the state unchanged. -/
def rotateAPIRefreshToken (st : ApiTokenStore) (apiRefreshTokenTTL : Int)
    (currentRefreshToken newRefreshToken : String) (now : Int) :
    ApiTokenStore × Except String ApiTokenResponse :=
  let currentHash := hashToken currentRefreshToken
  let newToken : APIRefreshToken :=
    { id := 0, userId := 0, familyId := "", tokenHash := hashToken newRefreshToken,
      expiresAt := now + apiRefreshTokenTTL, createdAt := 0, lastUsedAt := none,
      revokedAt := none, replacedByTokenId := none }
  match RotateAPIRefreshToken st currentHash newToken now with
  | .error e => (st, .error e)
  | .ok (st', result) =>
    if !result.authorized then
      let st'' := if result.reuseDetected ∧ result.familyId ≠ "" then
          RevokeAPIRefreshTokenFamily st' result.familyId now
        else st'
      (st'', .error "unauthorized")
    else
      (st', .ok { tokenType := "bearer", refreshToken := newRefreshToken,
                  refreshTokenExpiresAt := now + apiRefreshTokenTTL })

/-! ## OAuth flow tracker (`internal/server/web_oauth_flows.go` store) -/

/-- A pending OAuth flow (`oauthFlowRecord`). -/
structure OAuthFlowRecord where
  state : String
  provider : String
  codeVerifier : String
  redirectTo : String
  expiresAt : Int
deriving Repr, DecidableEq

/-- `cleanupLocked`: drop every record with `now.After(expiresAt)`. The flow
map is keyed by the state token; it is modelled as a list of records with
distinct `state` fields. -/
def cleanupFlows (flows : List OAuthFlowRecord) (now : Int) : List OAuthFlowRecord :=
  flows.filter fun r => !(decide (now > r.expiresAt))

/-- `oauthFlowStore.consume`: sweep expired entries, then atomically look up
and delete by state (one-time use even when validation fails); `none` models
`errOAuthFlowNotFound` for a missing state, a mismatched provider, or an
expired record. -/
def consume (flows : List OAuthFlowRecord) (state provider : String) (now : Int) :
    List OAuthFlowRecord × Option OAuthFlowRecord :=
  let cleaned := cleanupFlows flows now
  match cleaned.find? (fun r => r.state == state) with
  | none => (cleaned, none)
  | some record =>
    let rest := cleaned.filter fun r => !(r.state == state)
    if record.provider ≠ provider ∨ now > record.expiresAt then (rest, none)
    else (rest, some record)

/-! ## Auth rate limiter (`internal/server/middleware.go`) -/

/-- One fixed-window counter (`authRateLimitBucket`); the zero value stands
for Go's zero `time.Time`/zero counter. -/
structure AuthRateLimitBucket where
  windowStart : Int
  count : Int
  lastSeenAt : Int
deriving Repr, DecidableEq

/-- The limiter state (`authRateLimiter`); the clock is passed explicitly
(`l.now` is injected in Go). -/
structure AuthRateLimiter where
  buckets : List (String × AuthRateLimitBucket)
  limit : Int
  window : Int
deriving Repr, DecidableEq

/-- Go map key lookup. -/
def bucketLookup (m : List (String × AuthRateLimitBucket)) (key : String) :
    Option (String × AuthRateLimitBucket) :=
  m.find? fun kv => kv.1 == key

/-- Go map read with zero-value default. -/
def bucketGet (m : List (String × AuthRateLimitBucket)) (key : String) : AuthRateLimitBucket :=
  match bucketLookup m key with
  | some kv => kv.2
  | none => ⟨0, 0, 0⟩

/-- Go map write: replace the entry for the key or append a fresh one. -/
def bucketSet (m : List (String × AuthRateLimitBucket)) (key : String)
    (b : AuthRateLimitBucket) : List (String × AuthRateLimitBucket) :=
  match m with
  | [] => [(key, b)]
  | kv :: rest => if kv.1 == key then (key, b) :: rest else kv :: bucketSet rest key b

/-- `newAuthRateLimiter`: non-positive limit/window fall back to the defaults
(10 requests per minute; durations in nanoseconds). -/
def newAuthRateLimiter (limit : Int) (window : Int) : AuthRateLimiter :=
  { buckets := [],
    limit := if limit ≤ 0 then 10 else limit,
    window := if window ≤ 0 then 60000000000 else window }

/-- The per-bucket survival test of `cleanupLocked`: keep a bucket unless it
has been idle for at least `staleAfter` (twice the window, with the
two-minute fallback for a non-positive product). -/
def bucketKeep (window now : Int) (kv : String × AuthRateLimitBucket) : Bool :=
  !(decide (now - kv.2.lastSeenAt ≥ if window * 2 ≤ 0 then 120000000000 else window * 2))

/-- `cleanupLocked`: evict buckets idle for at least twice the window. -/
def cleanupBuckets (l : AuthRateLimiter) (now : Int) : List (String × AuthRateLimitBucket) :=
  if l.buckets.isEmpty then l.buckets
  else l.buckets.filter (bucketKeep l.window now)

/-- `authRateLimiter.allow`: sweep stale buckets; start a fresh window
(count 1, allowed) when none exists or the window has elapsed; otherwise
deny with the remaining wait once the count has reached the limit, else
increment and allow. -/
def allow (l : AuthRateLimiter) (key : String) (now : Int) :
    AuthRateLimiter × Bool × Int :=
  let l := { l with buckets := cleanupBuckets l now }
  let bucket := bucketGet l.buckets key
  if bucket.windowStart == 0 ∨ now - bucket.windowStart ≥ l.window then
    ({ l with buckets := bucketSet l.buckets key ⟨now, 1, now⟩ }, true, 0)
  else
    let bucket := { bucket with lastSeenAt := now }
    if bucket.count ≥ l.limit then
      let retryAfter := l.window - (now - bucket.windowStart)
      ({ l with buckets := bucketSet l.buckets key bucket }, false,
       if retryAfter < 0 then 0 else retryAfter)
    else
      ({ l with buckets := bucketSet l.buckets key { bucket with count := bucket.count + 1 } },
       true, 0)

/-! ## Helper lemmas: characters, trimming, hex -/

theorem toNat_ofNat_of_lt {n : Nat} (h : n < 0xd800) : (Char.ofNat n).toNat = n := by
  unfold Char.ofNat
  split
  · rfl
  · next hc => exact absurd (Or.inl h) hc

theorem goIsSpace_false_of_range {c : Char} (h1 : 33 ≤ c.toNat) (h2 : c.toNat ≤ 0x7f) :
    goIsSpace c = false := by
  unfold goIsSpace
  rw [decide_eq_false_iff_not]
  omega

theorem dropWhile_eq_self_of_not {α : Type} {p : α → Bool} {l : List α}
    (h : ∀ x ∈ l, p x = false) : l.dropWhile p = l := by
  cases l with
  | nil => rfl
  | cons a t => rw [List.dropWhile_cons, h a (by simp)]; simp

theorem hexEncode_mem_range {bs : List Nat} {c : Char} (h : c ∈ (hexEncode bs).data) :
    48 ≤ c.toNat ∧ c.toNat ≤ 102 := by
  induction bs with
  | nil => simp [hexEncode] at h
  | cons b t ih =>
    have hx : ∀ m : Nat, m < 16 → 48 ≤ (hexDigit m).toNat ∧ (hexDigit m).toNat ≤ 102 := by
      intro m hm
      unfold hexDigit
      split
      · next hlt => rw [toNat_ofNat_of_lt (by omega)]; omega
      · next hge => rw [toNat_ofNat_of_lt (by omega)]; omega
    have h' : c = hexDigit ((b >>> 4) % 16) ∨ c = hexDigit (b % 16) ∨ c ∈ (hexEncode t).data := by
      simpa [hexEncode] using h
    rcases h' with rfl | rfl | h'
    · exact hx _ (Nat.mod_lt _ (by omega))
    · exact hx _ (Nat.mod_lt _ (by omega))
    · exact ih h'

theorem trim_of_no_space {s : String} (h : ∀ c ∈ s.data, goIsSpace c = false) :
    goTrimSpace s = s := by
  have hl : trimLeftSpace s.data = s.data := dropWhile_eq_self_of_not h
  have hr : trimRightSpace s.data = s.data := by
    unfold trimRightSpace
    rw [dropWhile_eq_self_of_not (by intro c hc; exact h c (List.mem_reverse.mp hc)),
      List.reverse_reverse]
  cases s with
  | mk d =>
    apply String.ext
    show trimRightSpace (trimLeftSpace d) = d
    rw [show trimLeftSpace d = d from hl, show trimRightSpace d = d from hr]

theorem goTrimSpace_hashToken (raw : String) : goTrimSpace (hashToken raw) = hashToken raw := by
  apply trim_of_no_space
  intro c hc
  have := hexEncode_mem_range (c := c) hc
  exact goIsSpace_false_of_range (by omega) (by omega)

theorem trimRightSpace_append (l : List Char) : ∃ t, trimRightSpace l ++ t = l := by
  obtain ⟨t, ht⟩ := List.dropWhile_suffix (l := l.reverse) goIsSpace
  refine ⟨t.reverse, ?_⟩
  unfold trimRightSpace
  have : (t ++ l.reverse.dropWhile goIsSpace).reverse = l.reverse.reverse := by rw [ht]
  simpa using this

theorem goTrimSpace_idem (s : String) : goTrimSpace (goTrimSpace s) = goTrimSpace s := by
  cases s with
  | mk d =>
    apply String.ext
    show trimRightSpace (trimLeftSpace (trimRightSpace (trimLeftSpace d))) =
      trimRightSpace (trimLeftSpace d)
    -- a nonempty prefix of the left-trimmed list shares its non-space head,
    -- so left-trimming it again is the identity
    have key : ∀ m : List Char, (∃ t, m ++ t = trimLeftSpace d) →
        m.dropWhile goIsSpace = m := by
      rintro m ⟨t, ht⟩
      rw [List.dropWhile_eq_self_iff]
      intro hl
      cases m with
      | nil => simp at hl
      | cons y ys =>
        show ¬goIsSpace y = true
        have hy : (trimLeftSpace d).head? = some y := by rw [← ht]; rfl
        have hhead := List.head?_dropWhile_not goIsSpace d
        unfold trimLeftSpace at hy
        rw [hy] at hhead
        have hyf : goIsSpace y = false := hhead
        simp [hyf]
    have hL : trimLeftSpace (trimRightSpace (trimLeftSpace d)) =
        trimRightSpace (trimLeftSpace d) :=
      key _ (trimRightSpace_append _)
    rw [hL]
    unfold trimRightSpace
    rw [List.reverse_reverse, List.dropWhile_idempotent]

/-! ## C10: `hashToken` is whitespace-insensitive at the edges -/

/-- C10: for every raw string, `hashToken raw = hashToken (TrimSpace raw)` —
two presented tokens differing only in leading/trailing whitespace hash to
the same stored key — and on trimmed inputs `hashToken` is the
deterministic hex-encoded SHA-256 digest. -/
theorem c10_hashToken_trim_insensitive (raw : String) :
    hashToken raw = hashToken (goTrimSpace raw) ∧
    hashToken raw = hexEncode (sha256 (utf8Encode (goTrimSpace raw))) := by
  refine ⟨?_, rfl⟩
  unfold hashToken
  rw [goTrimSpace_idem]

/-! ## C2: session expiry boundary in `loadSession` -/

/-- Concrete user for the C2 boundary scenario. -/
def c2User : User := ⟨1, "alice@example.com", "Alice", "", 0, 0⟩

/-- Concrete session for the C2 boundary scenario: expires at tick 100,
not revoked. -/
def c2Session : Session := ⟨1, 1, hashToken "session-token", 100, 0, 50, "", "", none⟩

/-- Concrete database for the C2 boundary scenario. -/
def c2DB : AuthDB := ⟨[c2User], [], [c2Session], 2, 2⟩

/-- C2 counterexample: at `now` exactly equal to the session's `expiresAt`
(both 100), `loadSession` attaches the user (the session is treated as
valid), instead of treating the session as expired and clearing the cookie
as the claim states. -/
theorem c2_counterexample :
    c2Session.expiresAt = 100 ∧ c2Session.revokedAt = none ∧
    loadSession c2DB (some "session-token") 100 = .authenticated c2User false := by
  refine ⟨rfl, rfl, ?_⟩
  rfl

/-- C2 (amended): during request-scoped session validation, a session whose
`expiresAt` is exactly equal to `now` is treated as still valid (the user is
attached to the request); a session is treated as expired only when `now` is
strictly after `expiresAt` (`now.After(expiresAt)`). -/
theorem c2_session_expiry_boundary (db : AuthDB) (cookieVal : String) (sess : Session)
    (u : User) (now : Int)
    (h1 : goTrimSpace cookieVal ≠ "")
    (h2 : FindSessionAndUserByTokenHash db (hashToken (goTrimSpace cookieVal)) = some (sess, u))
    (h3 : sess.revokedAt = none) (h4 : sess.expiresAt = now) :
    loadSession db (some cookieVal) now =
      .authenticated u (decide (now - sess.lastSeenAt ≥ sessionTouchIdle)) := by
  unfold loadSession
  simp only [sessionTokenFromRequest]
  rw [if_neg (by simp [h1] : ¬(goTrimSpace cookieVal == "") = true), h2]
  show (if sess.revokedAt ≠ none ∨ now > sess.expiresAt then LoadSessionOutcome.anonymous true
    else LoadSessionOutcome.authenticated u (decide (now - sess.lastSeenAt ≥ sessionTouchIdle))) = _
  rw [if_neg ?_]
  rintro (hne | hgt)
  · exact hne h3
  · rw [h4] at hgt
    exact lt_irrefl _ hgt

/-- C2 witness: the amended boundary theorem applied to the concrete
database, session, and clock tick 100. -/
theorem c2_session_expiry_boundary_witness :
    loadSession c2DB (some "session-token") 100 = .authenticated c2User false :=
  c2_session_expiry_boundary c2DB "session-token" c2Session c2User 100
    (by decide) rfl rfl rfl

/-! ## C8: logout is an idempotent no-op without a credential -/

/-- C8: `logout` always clears the cookie and redirects to the login page
without erroring; with no presented token it deletes nothing; a second
logout after the cookie was cleared behaves identically; and when a token is
presented, exactly the session rows matching its hash are deleted. -/
theorem c8_logout_idempotent (db : AuthDB) (cookie : Option String) :
    (logout db cookie).2 = ⟨true, "/auth/login"⟩ ∧
    (sessionTokenFromRequest cookie = "" → (logout db cookie).1 = db) ∧
    logout (logout db cookie).1 none = ((logout db cookie).1, ⟨true, "/auth/login"⟩) ∧
    (sessionTokenFromRequest cookie ≠ "" →
      (logout db cookie).1.sessions = db.sessions.filter
        (fun s => !(s.tokenHash == hashToken (sessionTokenFromRequest cookie)))) := by
  refine ⟨rfl, ?_, rfl, ?_⟩
  · intro h
    simp [logout, h]
  · intro h
    show (if sessionTokenFromRequest cookie ≠ "" then
        DeleteSessionByTokenHash db (hashToken (sessionTokenFromRequest cookie))
      else db).sessions = _
    rw [if_pos h]
    simp only [DeleteSessionByTokenHash, goTrimSpace_hashToken]

/-- Concrete database for the C8 logout scenario: one session for the raw
token `"tok"`. -/
def c8DB : AuthDB := ⟨[⟨1, "", "Bob", "", 0, 0⟩], [],
  [⟨1, 1, hashToken "tok", 1000, 0, 0, "", "", none⟩], 2, 2⟩

/-- C8 witness: logging out with the cookie deletes the session; logging out
again with the cleared cookie is a no-op that still clears and redirects. -/
theorem c8_logout_idempotent_witness :
    (logout c8DB (some "tok")).1.sessions = [] ∧
    logout (logout c8DB (some "tok")).1 none =
      ((logout c8DB (some "tok")).1, ⟨true, "/auth/login"⟩) := by
  have h := c8_logout_idempotent c8DB (some "tok")
  refine ⟨?_, h.2.2.1⟩
  rw [h.2.2.2 (by decide)]
  decide

/-! ## C5: cross-provider e-mail conflict creates nothing -/

/-- C5: when no identity matches `(provider, provider_user_id)` and the
profile carries a verified, non-empty e-mail already owned by an existing
user, `findOrCreateSocialUser` fails with `EmailConflict` and leaves the
database unchanged (no new user row, no new identity row). -/
theorem c5_email_conflict (db : AuthDB) (profile : SocialProfile) (u : User)
    (h1 : FindByIdentity db profile.provider profile.providerUserId = none)
    (h2 : profile.emailVerified = true)
    (h3 : goTrimSpace profile.email ≠ "")
    (h4 : FindByEmail db profile.email = some u) :
    findOrCreateSocialUser db profile = (db, .error .emailConflict) := by
  simp [findOrCreateSocialUser, h1, h2, h3, h4]

/-- Concrete database for the C5 conflict scenario: one user owning
`alice@example.com` via a Google identity. -/
def c5DB : AuthDB :=
  ⟨[⟨1, "alice@example.com", "Alice", "", 0, 0⟩],
   [⟨1, 1, "google", "g1", "alice@example.com", "Alice", "", ""⟩], [], 2, 2⟩

/-- Concrete profile for the C5 conflict scenario: a GitHub login reporting
the same (differently-cased) verified e-mail. -/
def c5Profile : SocialProfile :=
  ⟨"github", "gh9", "Alice@Example.com", true, "Alice G", "", "aliceg"⟩

/-- C5 witness: the conflict theorem applied to the concrete database and
profile. -/
theorem c5_email_conflict_witness :
    findOrCreateSocialUser c5DB c5Profile = (c5DB, .error .emailConflict) :=
  c5_email_conflict c5DB c5Profile ⟨1, "alice@example.com", "Alice", "", 0, 0⟩
    (by decide) rfl (by decide) (by decide)

/-! ## C7: non-destructive profile refresh on an existing identity -/

theorem find?_map_of_id_preserved (l : List User) (f : User → User) (k : Nat)
    (hf : ∀ u, (f u).id = u.id) :
    (l.map f).find? (fun u => u.id == k) = (l.find? (fun u => u.id == k)).map f := by
  rw [List.find?_map]
  have hp : ((fun u : User => u.id == k) ∘ f) = (fun u : User => u.id == k) := by
    funext u
    simp [Function.comp, hf]
  rw [hp]

/-- C7: when an identity matching `(provider, provider_user_id)` exists,
the resolver returns the existing user with display name and avatar URL
overwritten only when the trimmed fresh profile value is non-empty (each
left unchanged when the fresh value is empty), and creates nothing: row
counts, id counters and sessions are unchanged, and every other user row
survives untouched. -/
theorem c7_profile_refresh (db : AuthDB) (profile : SocialProfile) (cur : User)
    (h1 : FindByIdentity db profile.provider profile.providerUserId = some cur) :
    (findOrCreateSocialUser db profile).2 = .ok { cur with
        displayName := if goTrimSpace profile.name ≠ "" then goTrimSpace profile.name
                       else cur.displayName,
        avatarURL := if goTrimSpace profile.avatarURL ≠ "" then goTrimSpace profile.avatarURL
                     else cur.avatarURL } ∧
    (findOrCreateSocialUser db profile).1.users.length = db.users.length ∧
    (findOrCreateSocialUser db profile).1.identities.length = db.identities.length ∧
    (findOrCreateSocialUser db profile).1.sessions = db.sessions ∧
    (findOrCreateSocialUser db profile).1.nextUserId = db.nextUserId ∧
    (findOrCreateSocialUser db profile).1.nextIdentityId = db.nextIdentityId ∧
    (∀ u ∈ db.users, u.id ≠ cur.id → u ∈ (findOrCreateSocialUser db profile).1.users) := by
  -- dissect the identity lookup
  have h1' := h1
  unfold FindByIdentity at h1'
  cases hI : db.identities.find? (fun i =>
      i.provider == normProvider profile.provider &&
      i.providerUserId == goTrimSpace profile.providerUserId) with
  | none => rw [hI] at h1'; exact absurd h1' (by simp)
  | some i =>
    rw [hI] at h1'
    have hcurid : cur.id = i.userId := by
      have := List.find?_some h1'
      simpa using this
    -- the user-row update function preserves ids
    set f : User → User := fun u =>
      if u.id == cur.id then
        { u with
          displayName := if goTrimSpace profile.name ≠ "" then goTrimSpace profile.name
                         else u.displayName,
          avatarURL := if goTrimSpace profile.avatarURL ≠ "" then goTrimSpace profile.avatarURL
                       else u.avatarURL }
      else u with hf
    have hfid : ∀ u, (f u).id = u.id := by
      intro u
      rw [hf]
      by_cases hu : (u.id == cur.id) = true <;> simp [hu]
    have hfind : db.users.find? (fun u => u.id == cur.id) = some cur := by
      rw [show (fun u : User => u.id == cur.id) = (fun u : User => u.id == i.userId) from
        by funext u; rw [hcurid]]
      exact h1'
    have hFindByID : FindByID (UpdateUserFromProfile db cur.id profile) cur.id = some (f cur) := by
      unfold FindByID UpdateUserFromProfile
      show (db.users.map f).find? (fun u => u.id == cur.id) = some (f cur)
      rw [find?_map_of_id_preserved db.users f cur.id hfid, hfind]
      rfl
    have hres : findOrCreateSocialUser db profile =
        (UpdateUserFromProfile db cur.id profile, .ok (f cur)) := by
      unfold findOrCreateSocialUser
      rw [h1]
      show (match FindByID (UpdateUserFromProfile db cur.id profile) cur.id with
        | some u => (UpdateUserFromProfile db cur.id profile, Except.ok u)
        | none => (UpdateUserFromProfile db cur.id profile, Except.error UserErr.notFound)) = _
      rw [hFindByID]
    rw [hres]
    refine ⟨?_, ?_, ?_, rfl, rfl, rfl, ?_⟩
    · show Except.ok (f cur) = _
      rw [hf]
      simp
    · show (db.users.map f).length = _
      rw [List.length_map]
    · show (db.identities.map _).length = _
      rw [List.length_map]
    · intro u hu hne
      show u ∈ db.users.map f
      have hfu : f u = u := by
        rw [hf]
        simp only [if_neg]
        rw [if_neg]
        simp [hne]
      rw [← hfu]
      exact List.mem_map_of_mem f hu

/-- Concrete database for the C7 refresh scenario. -/
def c7DB : AuthDB :=
  ⟨[⟨1, "alice@example.com", "Old Name", "old.png", 0, 0⟩, ⟨2, "bob@example.com", "Bob", "", 0, 0⟩],
   [⟨1, 1, "google", "g1", "alice@example.com", "Old Name", "", "old.png"⟩], [], 3, 2⟩

/-- Concrete profile for the C7 refresh scenario: blank display name (kept),
fresh avatar (overwritten). -/
def c7Profile : SocialProfile :=
  ⟨"google", "g1", "alice@example.com", true, "  ", "new.png", ""⟩

/-- C7 witness: the refresh theorem applied concretely — the whitespace-only
fresh name leaves the display name unchanged while the non-empty fresh
avatar overwrites the avatar URL, and nothing is created. -/
theorem c7_profile_refresh_witness :
    (findOrCreateSocialUser c7DB c7Profile).2 =
      .ok ⟨1, "alice@example.com", "Old Name", "new.png", 0, 0⟩ ∧
    (findOrCreateSocialUser c7DB c7Profile).1.users.length = 2 ∧
    (findOrCreateSocialUser c7DB c7Profile).1.identities.length = 1 := by
  have h := c7_profile_refresh c7DB c7Profile ⟨1, "alice@example.com", "Old Name", "old.png", 0, 0⟩
    (by decide)
  refine ⟨?_, h.2.1, h.2.2.1⟩
  rw [h.1]
  rfl

/-! ## C4: OAuth flow consumption is one-time and NotFound-complete -/

theorem find?_state_eq_some {flows : List OAuthFlowRecord} {s : String}
    (hnd : (flows.map OAuthFlowRecord.state).Nodup) {r : OAuthFlowRecord}
    (hr : r ∈ flows) (hs : r.state = s) :
    flows.find? (fun x => x.state == s) = some r := by
  induction flows with
  | nil => simp at hr
  | cons a t ih =>
    rcases List.mem_cons.mp hr with rfl | hrt
    · exact List.find?_cons_of_pos t (by simp [hs])
    · have hna : ¬(a.state == s) = true := by
        intro hcon
        have ha : a.state = s := by simpa using hcon
        have : r.state ∈ t.map OAuthFlowRecord.state := List.mem_map_of_mem _ hrt
        rw [hs, ← ha] at this
        exact (List.nodup_cons.mp (by simpa using hnd)).1 this
      rw [List.find?_cons_of_neg t hna]
      exact ih (List.nodup_cons.mp (by simpa using hnd)).2 hrt

/-- After any `consume` call on `state`, no stored record carries that state. -/
theorem consume_removes_state (flows : List OAuthFlowRecord) (s p : String) (now : Int) :
    ∀ r ∈ (consume flows s p now).1, r.state ≠ s := by
  intro r hr hcon
  cases hf : (cleanupFlows flows now).find? (fun x => x.state == s) with
  | none =>
    simp only [consume, hf] at hr
    exact (List.find?_eq_none.mp hf r hr) (by simp [hcon])
  | some record =>
    simp only [consume, hf] at hr
    have hmem : r ∈ (cleanupFlows flows now).filter (fun x => !(x.state == s)) := by
      by_cases hc : record.provider ≠ p ∨ now > record.expiresAt
      · rw [if_pos hc] at hr; exact hr
      · rw [if_neg hc] at hr; exact hr
    have := (List.mem_filter.mp hmem).2
    simp [hcon] at this

/-- C4: consuming a state deletes the stored record even when validation
fails, so a second `consume` of the same state always fails with NotFound;
and (for a store with distinct state keys, as the Go map guarantees)
`consume` fails with NotFound exactly when the state is absent, the stored
record's provider differs, or `now` is past the record's expiry. -/
theorem c4_consume_one_time_notFound (flows : List OAuthFlowRecord) (s p p' : String)
    (now now' : Int) (hnd : (flows.map OAuthFlowRecord.state).Nodup) :
    (consume (consume flows s p now).1 s p' now').2 = none ∧
    ((consume flows s p now).2 = none ↔
      (∀ r ∈ flows, r.state ≠ s) ∨
      ∃ r ∈ flows, r.state = s ∧ (r.provider ≠ p ∨ now > r.expiresAt)) := by
  constructor
  · -- one-time use
    have habs := consume_removes_state flows s p now
    generalize hG : (consume flows s p now).1 = flows1 at habs ⊢
    have hnone : (cleanupFlows flows1 now').find? (fun x => x.state == s) = none := by
      rw [List.find?_eq_none]
      intro x hx
      have hx' : x ∈ flows1 := List.mem_of_mem_filter hx
      simp [habs x hx']
    simp only [consume, hnone]
  · -- NotFound-completeness
    by_cases hex : ∃ r ∈ flows, r.state = s
    · obtain ⟨r, hr, hs⟩ := hex
      by_cases hexp : now > r.expiresAt
      · -- sweep removes the record before lookup; same observable NotFound
        have hnone : (cleanupFlows flows now).find? (fun x => x.state == s) = none := by
          rw [List.find?_eq_none]
          intro x hx hxs
          rcases List.mem_filter.mp hx with ⟨hxf, hxp⟩
          have hxs' : x.state = s := by simpa using hxs
          have : x = r := List.inj_on_of_nodup_map hnd hxf hr (hxs'.trans hs.symm)
          subst this
          simp only [Bool.not_eq_true', decide_eq_false_iff_not] at hxp
          exact hxp hexp
        have hres : (consume flows s p now).2 = none := by
          simp only [consume, hnone]
        rw [hres]
        simp only [true_iff]
        exact Or.inr ⟨r, hr, hs, Or.inr hexp⟩
      · -- the record survives the sweep and is found
        have hkeep : (fun x : OAuthFlowRecord => !(decide (now > x.expiresAt))) r = true := by
          simp [hexp]
        have hr1 : r ∈ cleanupFlows flows now := List.mem_filter.mpr ⟨hr, hkeep⟩
        have hnd1 : ((cleanupFlows flows now).map OAuthFlowRecord.state).Nodup :=
          List.Nodup.sublist ((List.filter_sublist flows).map OAuthFlowRecord.state) hnd
        have hfind := find?_state_eq_some hnd1 hr1 hs
        by_cases hp : r.provider ≠ p ∨ now > r.expiresAt
        · have hres : (consume flows s p now).2 = none := by
            simp only [consume, hfind]
            rw [if_pos hp]
          rw [hres]
          simp only [true_iff]
          exact Or.inr ⟨r, hr, hs, hp⟩
        · have hres : (consume flows s p now).2 = some r := by
            simp only [consume, hfind]
            rw [if_neg hp]
          rw [hres]
          constructor
          · intro hcon
            exact absurd hcon (by simp)
          · rintro (habs | ⟨r', hr', hs', hcond⟩)
            · exact absurd hs (habs r hr)
            · have : r' = r := List.inj_on_of_nodup_map hnd hr' hr (hs'.trans hs.symm)
              subst this
              exact absurd hcond hp
    · push_neg at hex
      have hnone : (cleanupFlows flows now).find? (fun x => x.state == s) = none := by
        rw [List.find?_eq_none]
        intro x hx hxs
        exact hex x (List.mem_of_mem_filter hx) (by simpa using hxs)
      have hres : (consume flows s p now).2 = none := by
        simp only [consume, hnone]
      rw [hres]
      simp only [true_iff]
      exact Or.inl hex

/-- Concrete flow store for the C4 witness: one pending Google flow expiring
at tick 100. -/
def c4Flows : List OAuthFlowRecord := [⟨"state-1", "google", "ver", "/account", 100⟩]

/-- C4 witness: the theorem applied to the concrete store — double
consumption fails, and the NotFound characterization holds there. -/
theorem c4_consume_one_time_notFound_witness :
    (consume (consume c4Flows "state-1" "github" 50).1 "state-1" "google" 50).2 = none ∧
    ((consume c4Flows "state-1" "github" 50).2 = none ↔
      (∀ r ∈ c4Flows, r.state ≠ "state-1") ∨
      ∃ r ∈ c4Flows, r.state = "state-1" ∧ (r.provider ≠ "github" ∨ 50 > r.expiresAt)) :=
  c4_consume_one_time_notFound c4Flows "state-1" "github" "google" 50 50 (by decide)

/-! ## C1: refresh-token rotation error contract -/

theorem revokeFamilyRow_mem_family (rows : List APIRefreshToken) (fid : String) (now : Int) :
    ∀ r ∈ rows.map (revokeFamilyRow fid now), r.familyId = fid → r.revokedAt ≠ none := by
  intro r hr hfam
  obtain ⟨r0, hr0, rfl⟩ := List.mem_map.mp hr
  unfold revokeFamilyRow
  by_cases h0 : (r0.familyId == fid) = true
  · simp [h0]
  · unfold revokeFamilyRow at hfam
    rw [if_neg h0] at hfam ⊢
    exact absurd (by simp [hfam]) h0

theorem revokeFamilyRow_preserves (rows : List APIRefreshToken) (fid' fid : String) (now : Int)
    (h : ∀ r ∈ rows, r.familyId = fid → r.revokedAt ≠ none) :
    ∀ r ∈ rows.map (revokeFamilyRow fid' now), r.familyId = fid → r.revokedAt ≠ none := by
  intro r hr hfam
  obtain ⟨r0, hr0, rfl⟩ := List.mem_map.mp hr
  unfold revokeFamilyRow at hfam ⊢
  by_cases h0 : (r0.familyId == fid') = true
  · simp [h0]
  · rw [if_neg h0] at hfam ⊢
    exact h r0 hr0 hfam

theorem rotate_store_miss_eq (st : ApiTokenStore) (oldHash : String)
    (newTok : APIRefreshToken) (now : Int)
    (hfind : st.rows.find? (fun r => r.tokenHash == goTrimSpace oldHash) = none) :
    RotateAPIRefreshToken st oldHash newTok now = .ok (st, ⟨0, "", false, false⟩) := by
  simp only [RotateAPIRefreshToken, hfind]

theorem rotate_store_reuse_eq (st : ApiTokenStore) (oldHash : String)
    (newTok : APIRefreshToken) (now : Int) (cur : APIRefreshToken)
    (hfind : st.rows.find? (fun r => r.tokenHash == goTrimSpace oldHash) = some cur)
    (hcond : cur.revokedAt ≠ none ∨ cur.replacedByTokenId ≠ none ∨ now > cur.expiresAt) :
    RotateAPIRefreshToken st oldHash newTok now =
      .ok ({ st with rows := st.rows.map (revokeFamilyRow cur.familyId now) },
           ⟨cur.userId, cur.familyId, true, false⟩) := by
  simp only [RotateAPIRefreshToken, hfind]
  rw [if_pos hcond]

/-- C1: for `rotate(oldRawToken, now)` — (i) when no stored row matches
`hashToken(oldRawToken)`, the call answers `unauthorized` and the store is
unchanged (nothing revoked, no reuse signal); (ii) when the matching row is
already revoked, already replaced, or past expiry at `now`, the call answers
`unauthorized`, the store-level result reports reuse detected, and every row
sharing the matched row's family id ends up revoked. -/
theorem c1_rotate_error_contract (st : ApiTokenStore) (ttl : Int) (raw newRaw : String)
    (now : Int) (cur : APIRefreshToken) :
    ((∀ r ∈ st.rows, r.tokenHash ≠ hashToken raw) →
      rotateAPIRefreshToken st ttl raw newRaw now = (st, .error "unauthorized")) ∧
    (st.rows.find? (fun r => r.tokenHash == hashToken raw) = some cur →
      (cur.revokedAt ≠ none ∨ cur.replacedByTokenId ≠ none ∨ now > cur.expiresAt) →
      (∃ st₁, RotateAPIRefreshToken st (hashToken raw)
          ⟨0, 0, "", hashToken newRaw, now + ttl, 0, none, none, none⟩ now =
          .ok (st₁, ⟨cur.userId, cur.familyId, true, false⟩)) ∧
      (rotateAPIRefreshToken st ttl raw newRaw now).2 = .error "unauthorized" ∧
      ∀ r ∈ (rotateAPIRefreshToken st ttl raw newRaw now).1.rows,
        r.familyId = cur.familyId → r.revokedAt ≠ none) := by
  constructor
  · intro h
    have hnone : st.rows.find? (fun r => r.tokenHash == goTrimSpace (hashToken raw)) = none := by
      rw [goTrimSpace_hashToken, List.find?_eq_none]
      intro x hx
      simp [h x hx]
    simp [rotateAPIRefreshToken, rotate_store_miss_eq st _ _ now hnone]
  · intro hfind hcond
    have hfind2 : st.rows.find? (fun r => r.tokenHash == goTrimSpace (hashToken raw)) =
        some cur := by
      rw [goTrimSpace_hashToken]
      exact hfind
    have hstore := rotate_store_reuse_eq st (hashToken raw)
      ⟨0, 0, "", hashToken newRaw, now + ttl, 0, none, none, none⟩ now cur hfind2 hcond
    refine ⟨⟨_, hstore⟩, ?_⟩
    have hres : rotateAPIRefreshToken st ttl raw newRaw now =
        (if cur.familyId ≠ "" then
          RevokeAPIRefreshTokenFamily
            { st with rows := st.rows.map (revokeFamilyRow cur.familyId now) } cur.familyId now
         else { st with rows := st.rows.map (revokeFamilyRow cur.familyId now) },
         .error "unauthorized") := by
      simp only [rotateAPIRefreshToken, hstore]
      by_cases hfid : cur.familyId ≠ ""
      · rw [if_pos hfid]
        simp [hfid]
      · rw [if_neg hfid]
        simp [hfid]
    rw [hres]
    refine ⟨rfl, ?_⟩
    by_cases hfid : cur.familyId ≠ ""
    · rw [if_pos hfid]
      exact revokeFamilyRow_preserves _ _ _ _
        (revokeFamilyRow_mem_family st.rows cur.familyId now)
    · rw [if_neg hfid]
      exact revokeFamilyRow_mem_family st.rows cur.familyId now

/-- Concrete store for the C1 witness: one already-revoked row for the raw
token `"old"` in family `"fam"`, and an unrevoked sibling in the same
family. -/
def c1Store : ApiTokenStore :=
  ⟨[⟨1, 7, "fam", hashToken "old", 1000, 0, none, some 400, none⟩,
    ⟨2, 7, "fam", hashToken "sibling", 1000, 0, none, none, none⟩], 3⟩

/-- C1 witness: the contract applied concretely — rotating an unknown token
against an empty store revokes nothing and answers unauthorized; presenting
the already-revoked `"old"` token answers unauthorized and leaves every row
of family `"fam"` revoked. -/
theorem c1_rotate_error_contract_witness :
    rotateAPIRefreshToken ⟨[], 1⟩ 100 "ghost" "new" 0 = (⟨[], 1⟩, .error "unauthorized") ∧
    (rotateAPIRefreshToken c1Store 100 "old" "new" 500).2 = .error "unauthorized" ∧
    ∀ r ∈ (rotateAPIRefreshToken c1Store 100 "old" "new" 500).1.rows,
      r.familyId = "fam" → r.revokedAt ≠ none := by
  have h1 := (c1_rotate_error_contract ⟨[], 1⟩ 100 "ghost" "new" 0
    ⟨1, 7, "fam", hashToken "old", 1000, 0, none, some 400, none⟩).1 (by simp)
  have h2 := (c1_rotate_error_contract c1Store 100 "old" "new" 500
    ⟨1, 7, "fam", hashToken "old", 1000, 0, none, some 400, none⟩).2 (by rfl) (by simp)
  exact ⟨h1, h2.2.1, h2.2.2⟩

/-! ## C3: successful rotation postcondition -/

theorem rotate_store_success_eq (st : ApiTokenStore) (oldHash : String)
    (newTok : APIRefreshToken) (now : Int) (cur : APIRefreshToken)
    (hfind : st.rows.find? (fun r => r.tokenHash == goTrimSpace oldHash) = some cur)
    (hcond : ¬(cur.revokedAt ≠ none ∨ cur.replacedByTokenId ≠ none ∨ now > cur.expiresAt))
    (hany : st.rows.any (fun r => r.tokenHash == goTrimSpace newTok.tokenHash) = false) :
    RotateAPIRefreshToken st oldHash newTok now =
      .ok ({ rows := (st.rows.map fun r =>
                if r.id == cur.id then
                  { r with lastUsedAt := some now, revokedAt := some now,
                           replacedByTokenId := some st.nextId }
                else r) ++
              [{ id := st.nextId,
                 userId := if newTok.userId == 0 then cur.userId else newTok.userId,
                 familyId := if goTrimSpace newTok.familyId == "" then cur.familyId
                             else goTrimSpace newTok.familyId,
                 tokenHash := goTrimSpace newTok.tokenHash, expiresAt := newTok.expiresAt,
                 createdAt := now, lastUsedAt := none, revokedAt := none,
                 replacedByTokenId := none }],
             nextId := st.nextId + 1 },
           ⟨cur.userId, cur.familyId, false, true⟩) := by
  simp only [RotateAPIRefreshToken, hfind]
  rw [if_neg hcond]
  simp only [hany]
  rfl

/-- C3: when the row matching the presented token's hash exists and is
neither revoked, nor replaced, nor expired at `now` (and the fresh random
token's hash is unused, as the `token_hash` unique constraint enforces),
`rotate` answers the rotated pair; the new raw token differs from the
presented one; a new active row with the same user id and family id and the
fresh hash/expiry is inserted at the next generated id; the old row is
marked revoked at `now` with a forward pointer to the new row's id; and when
the matched row was the family's only active row before, the new row is the
family's only active row after (the writes are one atomic step of the
model). -/
theorem c3_rotate_success (st : ApiTokenStore) (ttl : Int) (raw newRaw : String)
    (now : Int) (cur : APIRefreshToken)
    (hfind : st.rows.find? (fun r => r.tokenHash == hashToken raw) = some cur)
    (hactive : cur.revokedAt = none ∧ cur.replacedByTokenId = none ∧ ¬now > cur.expiresAt)
    (hfresh : ∀ r ∈ st.rows, r.tokenHash ≠ hashToken newRaw) :
    (rotateAPIRefreshToken st ttl raw newRaw now).2 =
      .ok ⟨"bearer", newRaw, now + ttl⟩ ∧
    newRaw ≠ raw ∧
    (∃ newRow ∈ (rotateAPIRefreshToken st ttl raw newRaw now).1.rows,
      newRow.id = st.nextId ∧ newRow.userId = cur.userId ∧
      newRow.familyId = cur.familyId ∧ newRow.tokenHash = hashToken newRaw ∧
      newRow.expiresAt = now + ttl ∧ tokenActive newRow) ∧
    (∃ oldRow ∈ (rotateAPIRefreshToken st ttl raw newRaw now).1.rows,
      oldRow.id = cur.id ∧ oldRow.revokedAt = some now ∧
      oldRow.replacedByTokenId = some st.nextId ∧ oldRow.lastUsedAt = some now) ∧
    ((∀ r ∈ st.rows, r.familyId = cur.familyId → tokenActive r → r.id = cur.id) →
      ∀ r ∈ (rotateAPIRefreshToken st ttl raw newRaw now).1.rows,
        r.familyId = cur.familyId → tokenActive r → r.id = st.nextId) := by
  have hfind2 : st.rows.find? (fun r => r.tokenHash == goTrimSpace (hashToken raw)) =
      some cur := by
    rw [goTrimSpace_hashToken]
    exact hfind
  have hcond : ¬(cur.revokedAt ≠ none ∨ cur.replacedByTokenId ≠ none ∨
      now > cur.expiresAt) := by
    rintro (h | h | h)
    · exact h hactive.1
    · exact h hactive.2.1
    · exact hactive.2.2 h
  have hany : st.rows.any (fun r =>
      r.tokenHash == goTrimSpace (hashToken newRaw)) = false := by
    rw [goTrimSpace_hashToken]
    simp only [List.any_eq_false]
    intro r hr
    simp [hfresh r hr]
  have hstore := rotate_store_success_eq st (hashToken raw)
    ⟨0, 0, "", hashToken newRaw, now + ttl, 0, none, none, none⟩ now cur hfind2 hcond hany
  have hcurmem : cur ∈ st.rows := List.mem_of_find?_eq_some hfind
  have hcurhash : cur.tokenHash = hashToken raw := by
    have := List.find?_some hfind
    simpa using this
  have hnewraw : newRaw ≠ raw := by
    intro hcon
    subst hcon
    exact hfresh cur hcurmem hcurhash
  -- the post-rotation store, in closed form
  have hres : rotateAPIRefreshToken st ttl raw newRaw now =
      ({ rows := (st.rows.map fun r =>
            if r.id == cur.id then
              { r with lastUsedAt := some now, revokedAt := some now,
                       replacedByTokenId := some st.nextId }
            else r) ++
          [{ id := st.nextId, userId := cur.userId, familyId := cur.familyId,
             tokenHash := goTrimSpace (hashToken newRaw), expiresAt := now + ttl,
             createdAt := now, lastUsedAt := none, revokedAt := none,
             replacedByTokenId := none }],
         nextId := st.nextId + 1 },
       .ok ⟨"bearer", newRaw, now + ttl⟩) := by
    simp only [rotateAPIRefreshToken, hstore]
    rfl
  rw [hres]
  refine ⟨rfl, hnewraw, ?_, ?_, ?_⟩
  · refine ⟨_, List.mem_append_right _ (List.mem_singleton.mpr rfl), rfl, rfl, rfl, ?_, rfl, ?_⟩
    · exact goTrimSpace_hashToken newRaw
    · exact ⟨rfl, rfl⟩
  · refine ⟨(fun r => if r.id == cur.id then
        { r with lastUsedAt := some now, revokedAt := some now,
                 replacedByTokenId := some st.nextId } else r) cur,
      List.mem_append_left _ (List.mem_map_of_mem _ hcurmem), ?_⟩
    simp
  · intro huniq r hr hfam hact
    rcases List.mem_append.mp hr with hr | hr
    · obtain ⟨r0, hr0, rfl⟩ := List.mem_map.mp hr
      by_cases h0 : (r0.id == cur.id) = true
      · rw [if_pos h0] at hact
        exact absurd hact.1 (by simp)
      · rw [if_neg h0] at hact hfam
        have : r0.id = cur.id := huniq r0 hr0 hfam hact
        exact absurd (by simp [this]) h0
    · rw [List.mem_singleton.mp hr]

/-- Concrete store for the C3 witness: one active row for the raw token
`"old-token"` in family `"fam"`. -/
def c3Store : ApiTokenStore :=
  ⟨[⟨1, 7, "fam", hashToken "old-token", 1000, 0, none, none, none⟩], 2⟩

/-- C3 witness: the success theorem applied concretely at `now = 500`,
TTL 100. -/
theorem c3_rotate_success_witness :
    (rotateAPIRefreshToken c3Store 100 "old-token" "new-token" 500).2 =
      .ok ⟨"bearer", "new-token", 600⟩ ∧
    "new-token" ≠ "old-token" := by
  have h := c3_rotate_success c3Store 100 "old-token" "new-token" 500
    ⟨1, 7, "fam", hashToken "old-token", 1000, 0, none, none, none⟩
    (by rfl) (by simp) (by decide)
  exact ⟨h.1, h.2.1⟩

/-! ## C6: fixed-window rate limiting -/

theorem cleanupBuckets_eq_filter (l : AuthRateLimiter) (now : Int) :
    cleanupBuckets l now = l.buckets.filter (bucketKeep l.window now) := by
  unfold cleanupBuckets
  by_cases h : l.buckets.isEmpty = true
  · rw [if_pos h, List.isEmpty_iff.mp h]
    rfl
  · rw [if_neg h]

theorem bucketLookup_filter (m : List (String × AuthRateLimitBucket))
    (p : String × AuthRateLimitBucket → Bool) (k : String)
    (hnd : (m.map Prod.fst).Nodup) :
    bucketLookup (m.filter p) k =
      match bucketLookup m k with
      | some kv => if p kv then some kv else none
      | none => none := by
  induction m with
  | nil => rfl
  | cons kv t ih =>
    have hnd' : (t.map Prod.fst).Nodup := (List.nodup_cons.mp (by simpa using hnd)).2
    have hknot : kv.1 ∉ t.map Prod.fst := (List.nodup_cons.mp (by simpa using hnd)).1
    by_cases hk : (kv.1 == k) = true
    · have hlk : bucketLookup (kv :: t) k = some kv := List.find?_cons_of_pos t hk
      simp only [hlk]
      by_cases hp : p kv = true
      · rw [List.filter_cons_of_pos hp, if_pos hp]
        exact List.find?_cons_of_pos _ hk
      · rw [List.filter_cons_of_neg (by simp [hp]), if_neg hp]
        rw [show bucketLookup (t.filter p) k = none from ?_]
        unfold bucketLookup
        rw [List.find?_eq_none]
        intro x hx hxk
        apply hknot
        have : x.1 = k := by simpa using hxk
        rw [show kv.1 = k from by simpa using hk, ← this]
        exact List.mem_map_of_mem Prod.fst (List.mem_of_mem_filter hx)
    · have hlk : bucketLookup (kv :: t) k = bucketLookup t k := List.find?_cons_of_neg t hk
      simp only [hlk]
      rw [← ih hnd']
      by_cases hp : p kv = true
      · rw [List.filter_cons_of_pos hp]
        exact List.find?_cons_of_neg _ hk
      · rw [List.filter_cons_of_neg (by simp [hp])]

theorem bucketLookup_set_self (m : List (String × AuthRateLimitBucket)) (k : String)
    (v : AuthRateLimitBucket) : bucketLookup (bucketSet m k v) k = some (k, v) := by
  induction m with
  | nil => exact List.find?_cons_of_pos _ (by simp)
  | cons kv t ih =>
    unfold bucketSet
    by_cases hk : (kv.1 == k) = true
    · rw [if_pos hk]
      exact List.find?_cons_of_pos _ (by simp)
    · rw [if_neg hk]
      rw [show bucketLookup (kv :: bucketSet t k v) k = bucketLookup (bucketSet t k v) k from
        List.find?_cons_of_neg _ hk]
      exact ih

theorem bucketLookup_set_other (m : List (String × AuthRateLimitBucket)) (k k' : String)
    (v : AuthRateLimitBucket) (h : k ≠ k') :
    bucketLookup (bucketSet m k v) k' = bucketLookup m k' := by
  induction m with
  | nil =>
    show List.find? _ [(k, v)] = none
    rw [List.find?_eq_none]
    intro x hx
    rw [List.mem_singleton.mp hx]
    simp [h]
  | cons kv t ih =>
    unfold bucketSet
    by_cases hk : (kv.1 == k) = true
    · rw [if_pos hk]
      have hkv : kv.1 = k := by simpa using hk
      by_cases hk' : (kv.1 == k') = true
      · exact absurd (by simpa using hk' : kv.1 = k') (by rw [hkv]; exact h)
      · rw [show bucketLookup ((k, v) :: t) k' = bucketLookup t k' from
          List.find?_cons_of_neg _ (by simp [h]),
          show bucketLookup (kv :: t) k' = bucketLookup t k' from List.find?_cons_of_neg _ hk']
    · rw [if_neg hk]
      by_cases hk' : (kv.1 == k') = true
      · rw [show bucketLookup (kv :: bucketSet t k v) k' = some kv from
          List.find?_cons_of_pos _ hk',
          show bucketLookup (kv :: t) k' = some kv from List.find?_cons_of_pos _ hk']
      · rw [show bucketLookup (kv :: bucketSet t k v) k' = bucketLookup (bucketSet t k v) k' from
          List.find?_cons_of_neg _ hk',
          show bucketLookup (kv :: t) k' = bucketLookup t k' from List.find?_cons_of_neg _ hk']
        exact ih

theorem mem_keys_bucketSet (m : List (String × AuthRateLimitBucket)) (k x : String)
    (v : AuthRateLimitBucket) :
    x ∈ (bucketSet m k v).map Prod.fst ↔ x = k ∨ x ∈ m.map Prod.fst := by
  induction m with
  | nil => simp [bucketSet]
  | cons kv t ih =>
    unfold bucketSet
    by_cases hk : (kv.1 == k) = true
    · have hkv : kv.1 = k := by simpa using hk
      rw [if_pos hk]
      simp only [List.map_cons, List.mem_cons, hkv]
      tauto
    · rw [if_neg hk]
      simp only [List.map_cons, List.mem_cons, ih]
      tauto

theorem nodup_keys_bucketSet (m : List (String × AuthRateLimitBucket)) (k : String)
    (v : AuthRateLimitBucket) (hnd : (m.map Prod.fst).Nodup) :
    ((bucketSet m k v).map Prod.fst).Nodup := by
  induction m with
  | nil => simp [bucketSet]
  | cons kv t ih =>
    have hnd' : (t.map Prod.fst).Nodup := (List.nodup_cons.mp (by simpa using hnd)).2
    have hknot : kv.1 ∉ t.map Prod.fst := (List.nodup_cons.mp (by simpa using hnd)).1
    unfold bucketSet
    by_cases hk : (kv.1 == k) = true
    · have hkv : kv.1 = k := by simpa using hk
      rw [if_pos hk]
      simp only [List.map_cons, List.nodup_cons]
      exact ⟨by rw [← hkv]; exact hknot, hnd'⟩
    · rw [if_neg hk]
      simp only [List.map_cons, List.nodup_cons]
      refine ⟨?_, ih hnd'⟩
      rw [mem_keys_bucketSet]
      rintro (hc | hc)
      · exact absurd (by simp [hc]) hk
      · exact hknot hc

theorem allow_eq_fresh (l : AuthRateLimiter) (key : String) (now : Int)
    (h : (bucketGet (cleanupBuckets l now) key).windowStart == 0 ∨
      now - (bucketGet (cleanupBuckets l now) key).windowStart ≥ l.window) :
    allow l key now =
      ({ l with buckets := bucketSet (cleanupBuckets l now) key ⟨now, 1, now⟩ }, true, 0) := by
  simp only [allow]
  rw [if_pos h]

theorem allow_eq_deny (l : AuthRateLimiter) (key : String) (now : Int)
    (h1 : ¬((bucketGet (cleanupBuckets l now) key).windowStart == 0 ∨
      now - (bucketGet (cleanupBuckets l now) key).windowStart ≥ l.window))
    (h2 : (bucketGet (cleanupBuckets l now) key).count ≥ l.limit) :
    allow l key now =
      ({ l with buckets := (bucketSet (cleanupBuckets l now) key
          ({ bucketGet (cleanupBuckets l now) key with lastSeenAt := now })) }, false,
       if l.window - (now - (bucketGet (cleanupBuckets l now) key).windowStart) < 0 then 0
       else l.window - (now - (bucketGet (cleanupBuckets l now) key).windowStart)) := by
  simp only [allow]
  rw [if_neg h1, if_pos h2]

theorem allow_eq_incr (l : AuthRateLimiter) (key : String) (now : Int)
    (h1 : ¬((bucketGet (cleanupBuckets l now) key).windowStart == 0 ∨
      now - (bucketGet (cleanupBuckets l now) key).windowStart ≥ l.window))
    (h2 : ¬(bucketGet (cleanupBuckets l now) key).count ≥ l.limit) :
    allow l key now =
      ({ l with buckets := (bucketSet (cleanupBuckets l now) key
          ({ bucketGet (cleanupBuckets l now) key with lastSeenAt := now, count := (bucketGet (cleanupBuckets l now) key).count + 1 })) }, true, 0) := by
  simp only [allow]
  rw [if_neg h1, if_neg h2]

/-- The outcome of one `allow` call depends only on the window, the limit,
and the post-sweep bucket value of the key. -/
theorem allow_snd_congr (l l' : AuthRateLimiter) (key : String) (now : Int)
    (hw : l.window = l'.window) (hl : l.limit = l'.limit)
    (hg : bucketGet (cleanupBuckets l now) key = bucketGet (cleanupBuckets l' now) key) :
    (allow l key now).2 = (allow l' key now).2 := by
  by_cases h1 : (bucketGet (cleanupBuckets l now) key).windowStart == 0 ∨
      now - (bucketGet (cleanupBuckets l now) key).windowStart ≥ l.window
  · rw [allow_eq_fresh l key now h1, allow_eq_fresh l' key now (by rw [← hg, ← hw]; exact h1)]
  · by_cases h2 : (bucketGet (cleanupBuckets l now) key).count ≥ l.limit
    · rw [allow_eq_deny l key now h1 h2,
        allow_eq_deny l' key now (by rw [← hg, ← hw]; exact h1) (by rw [← hg, ← hl]; exact h2)]
      rw [← hg, ← hw]
    · rw [allow_eq_incr l key now h1 h2,
        allow_eq_incr l' key now (by rw [← hg, ← hw]; exact h1) (by rw [← hg, ← hl]; exact h2)]

theorem allow_preserves_config (l : AuthRateLimiter) (key : String) (now : Int) :
    (allow l key now).1.window = l.window ∧ (allow l key now).1.limit = l.limit := by
  by_cases h1 : (bucketGet (cleanupBuckets l now) key).windowStart == 0 ∨
      now - (bucketGet (cleanupBuckets l now) key).windowStart ≥ l.window
  · rw [allow_eq_fresh l key now h1]
    exact ⟨rfl, rfl⟩
  · by_cases h2 : (bucketGet (cleanupBuckets l now) key).count ≥ l.limit
    · rw [allow_eq_deny l key now h1 h2]
      exact ⟨rfl, rfl⟩
    · rw [allow_eq_incr l key now h1 h2]
      exact ⟨rfl, rfl⟩

theorem allow_buckets_set (l : AuthRateLimiter) (key : String) (now : Int) :
    ∃ x, (allow l key now).1.buckets = bucketSet (cleanupBuckets l now) key x := by
  by_cases h1 : (bucketGet (cleanupBuckets l now) key).windowStart == 0 ∨
      now - (bucketGet (cleanupBuckets l now) key).windowStart ≥ l.window
  · rw [allow_eq_fresh l key now h1]
    exact ⟨_, rfl⟩
  · by_cases h2 : (bucketGet (cleanupBuckets l now) key).count ≥ l.limit
    · rw [allow_eq_deny l key now h1 h2]
      exact ⟨_, rfl⟩
    · rw [allow_eq_incr l key now h1 h2]
      exact ⟨_, rfl⟩

theorem bucketGet_filter_set_other (bl : List (String × AuthRateLimitBucket))
    (p : String × AuthRateLimitBucket → Bool) (key key' : String) (x : AuthRateLimitBucket)
    (h : key' ≠ key) (hnd : (bl.map Prod.fst).Nodup) :
    bucketGet ((bucketSet (bl.filter p) key' x).filter p) key = bucketGet (bl.filter p) key := by
  have hndf : ((bl.filter p).map Prod.fst).Nodup :=
    List.Nodup.sublist ((List.filter_sublist bl).map Prod.fst) hnd
  have hnds : ((bucketSet (bl.filter p) key' x).map Prod.fst).Nodup :=
    nodup_keys_bucketSet _ _ _ hndf
  simp only [bucketGet]
  rw [bucketLookup_filter _ p key hnds, bucketLookup_set_other _ _ _ _ h,
    bucketLookup_filter _ p key hnd]
  cases hbkl : bucketLookup bl key with
  | none => rfl
  | some kv =>
    by_cases hp : p kv = true
    · simp [hp]
    · simp [hp]

/-- C6: fixed-window rate limiting — (i) with no window for the key, or an
elapsed one, `allow` starts a fresh window with count 1 and allows;
(ii) inside the window below the limit it increments and allows; (iii) once
the window's count has reached the limit it denies with a strictly positive
remaining wait; (iv) a call for a different key does not change the key's
outcome. -/
theorem c6_fixed_window_rate_limit (l : AuthRateLimiter) (key key' : String) (now : Int)
    (kv : String × AuthRateLimitBucket)
    (hnd : (l.buckets.map Prod.fst).Nodup) (hw : 0 < l.window) (hk : key' ≠ key) :
    ((bucketLookup l.buckets key = none ∨
       (bucketLookup l.buckets key = some kv ∧
         (kv.2.windowStart = 0 ∨ now - kv.2.windowStart ≥ l.window))) →
      (allow l key now).2 = (true, 0) ∧
      bucketGet (allow l key now).1.buckets key = ⟨now, 1, now⟩) ∧
    (bucketLookup l.buckets key = some kv →
      kv.2.windowStart ≠ 0 → now - kv.2.windowStart < l.window →
      kv.2.windowStart ≤ kv.2.lastSeenAt → kv.2.count < l.limit →
      (allow l key now).2 = (true, 0) ∧
      bucketGet (allow l key now).1.buckets key =
        ⟨kv.2.windowStart, kv.2.count + 1, now⟩) ∧
    (bucketLookup l.buckets key = some kv →
      kv.2.windowStart ≠ 0 → now - kv.2.windowStart < l.window →
      kv.2.windowStart ≤ kv.2.lastSeenAt → kv.2.count ≥ l.limit →
      (allow l key now).2 = (false, l.window - (now - kv.2.windowStart)) ∧
      0 < l.window - (now - kv.2.windowStart)) ∧
    (allow (allow l key' now).1 key now).2 = (allow l key now).2 := by
  have hb := bucketLookup_filter l.buckets (bucketKeep l.window now) key hnd
  refine ⟨?_, ?_, ?_, ?_⟩
  · -- (i) fresh window
    intro h
    have hfresh : (bucketGet (cleanupBuckets l now) key).windowStart == 0 ∨
        now - (bucketGet (cleanupBuckets l now) key).windowStart ≥ l.window := by
      rw [cleanupBuckets_eq_filter]
      rcases h with hnone | ⟨hsome, hcase⟩
      · left
        simp only [bucketGet, hb, hnone]
        rfl
      · by_cases hkeep : bucketKeep l.window now kv = true
        · have hg : bucketGet (l.buckets.filter (bucketKeep l.window now)) key = kv.2 := by
            simp only [bucketGet, hb, hsome, if_pos hkeep]
          rw [hg]
          rcases hcase with hz | hs
          · left
            simp [hz]
          · right
            exact hs
        · left
          simp only [bucketGet, hb, hsome, if_neg hkeep]
          rfl
    rw [allow_eq_fresh l key now hfresh]
    refine ⟨rfl, ?_⟩
    simp only [bucketGet, bucketLookup_set_self]
  · -- (ii) increment inside the window
    intro hfind hws hwin hseen hcnt
    have hkeep : bucketKeep l.window now kv = true := by
      unfold bucketKeep
      rw [if_neg (by omega : ¬l.window * 2 ≤ 0)]
      simp only [Bool.not_eq_true', decide_eq_false_iff_not]
      omega
    have hg : bucketGet (cleanupBuckets l now) key = kv.2 := by
      rw [cleanupBuckets_eq_filter]
      simp only [bucketGet, hb, hfind, if_pos hkeep]
    have h1 : ¬((bucketGet (cleanupBuckets l now) key).windowStart == 0 ∨
        now - (bucketGet (cleanupBuckets l now) key).windowStart ≥ l.window) := by
      rw [hg]
      rintro (hz | hs)
      · exact hws (by simpa using hz)
      · omega
    have h2 : ¬(bucketGet (cleanupBuckets l now) key).count ≥ l.limit := by
      rw [hg]
      omega
    rw [allow_eq_incr l key now h1 h2]
    refine ⟨rfl, ?_⟩
    rw [hg]
    simp only [bucketGet, bucketLookup_set_self]
  · -- (iii) deny at the limit with positive retry
    intro hfind hws hwin hseen hcnt
    have hkeep : bucketKeep l.window now kv = true := by
      unfold bucketKeep
      rw [if_neg (by omega : ¬l.window * 2 ≤ 0)]
      simp only [Bool.not_eq_true', decide_eq_false_iff_not]
      omega
    have hg : bucketGet (cleanupBuckets l now) key = kv.2 := by
      rw [cleanupBuckets_eq_filter]
      simp only [bucketGet, hb, hfind, if_pos hkeep]
    have h1 : ¬((bucketGet (cleanupBuckets l now) key).windowStart == 0 ∨
        now - (bucketGet (cleanupBuckets l now) key).windowStart ≥ l.window) := by
      rw [hg]
      rintro (hz | hs)
      · exact hws (by simpa using hz)
      · omega
    have h2 : (bucketGet (cleanupBuckets l now) key).count ≥ l.limit := by
      rw [hg]
      omega
    rw [allow_eq_deny l key now h1 h2, hg]
    rw [if_neg (by omega : ¬l.window - (now - kv.2.windowStart) < 0)]
    exact ⟨rfl, by omega⟩
  · -- (iv) cross-key isolation
    obtain ⟨x, hx⟩ := allow_buckets_set l key' now
    have hcfg := allow_preserves_config l key' now
    apply allow_snd_congr _ _ key now hcfg.1 hcfg.2
    rw [cleanupBuckets_eq_filter, cleanupBuckets_eq_filter, hcfg.1, hx,
      cleanupBuckets_eq_filter]
    exact bucketGet_filter_set_other l.buckets (bucketKeep l.window now) key key' x hk hnd

/-- Concrete limiter for the C6 witness: limit 2 per 60-second window (in
nanoseconds), with the key `"k"` already at count 2 inside its window. -/
def c6Limiter : AuthRateLimiter := ⟨[("k", ⟨1000, 2, 2000⟩)], 2, 60000000000⟩

/-- C6 witness: the theorem applied concretely — the third request inside
the window is denied with a positive wait, a fresh key is allowed with a new
count-1 window, and a prior call for the other key leaves the outcome for
`"k"` unchanged. -/
theorem c6_fixed_window_rate_limit_witness :
    (allow c6Limiter "k" 3000).2 = (false, 60000000000 - (3000 - 1000)) ∧
    (0 : Int) < 60000000000 - (3000 - 1000) ∧
    (allow c6Limiter "other" 3000).2 = (true, 0) ∧
    (allow (allow c6Limiter "other" 3000).1 "k" 3000).2 = (allow c6Limiter "k" 3000).2 := by
  have h := c6_fixed_window_rate_limit c6Limiter "k" "other" 3000 ("k", ⟨1000, 2, 2000⟩)
    (by decide) (by decide) (by decide)
  have h' := c6_fixed_window_rate_limit c6Limiter "other" "k" 3000 ("k", ⟨1000, 2, 2000⟩)
    (by decide) (by decide) (by decide)
  have hc := h.2.2.1 (by decide) (by decide) (by decide) (by decide) (by decide)
  exact ⟨hc.1, hc.2, (h'.1 (Or.inl (by decide))).1, h.2.2.2⟩

/-! ## C9: PKCE challenge = unpadded base64url of the SHA-256 digest -/

theorem and_63_eq_mod (x : Nat) : x &&& 63 = x % 64 := by
  have h := Nat.and_pow_two_sub_one_eq_mod x 6
  norm_num at h
  exact h

theorem lor_eq_add {a b : Nat} (k : Nat) (ha : 2 ^ k ∣ a) (hb : b < 2 ^ k) :
    a ||| b = a + b := by
  obtain ⟨m, rfl⟩ := ha
  apply Nat.eq_of_testBit_eq
  intro i
  rw [Nat.testBit_lor]
  rcases lt_or_ge i k with hik | hik
  · have h1 : (2 ^ k * m).testBit i = false := by
      have h := Nat.testBit_mul_pow_two_add m (b := 0) (i := k) (Nat.pos_pow_of_pos k (by omega)) i
      simpa [hik] using h
    have h2 : (2 ^ k * m + b).testBit i = b.testBit i := by
      rw [Nat.testBit_mul_pow_two_add m hb i]
      simp [hik]
    rw [h1, h2, Bool.false_or]
  · have h1 : (2 ^ k * m).testBit i = m.testBit (i - k) := by
      have h := Nat.testBit_mul_pow_two_add m (b := 0) (i := k) (Nat.pos_pow_of_pos k (by omega)) i
      simpa [Nat.not_lt.mpr hik] using h
    have h2 : (2 ^ k * m + b).testBit i = m.testBit (i - k) := by
      rw [Nat.testBit_mul_pow_two_add m hb i]
      simp [Nat.not_lt.mpr hik]
    have h3 : b.testBit i = false :=
      Nat.testBit_lt_two_pow (lt_of_lt_of_le hb (Nat.pow_le_pow_right (by omega) hik))
    rw [h1, h2, h3, Bool.or_false]

theorem twoBytes_eq (b0 : Nat) {b1 : Nat} (h1 : b1 < 256) :
    (b0 <<< 16) ||| (b1 <<< 8) = b0 * 65536 + b1 * 256 := by
  rw [Nat.shiftLeft_eq, Nat.shiftLeft_eq]
  rw [lor_eq_add 16 ⟨b0, by norm_num; ring⟩ (by norm_num; omega : b1 * 2 ^ 8 < 2 ^ 16)]
  norm_num

theorem threeBytes_eq (b0 : Nat) {b1 b2 : Nat} (h1 : b1 < 256) (h2 : b2 < 256) :
    (b0 <<< 16) ||| (b1 <<< 8) ||| b2 = b0 * 65536 + b1 * 256 + b2 := by
  rw [twoBytes_eq b0 h1]
  rw [lor_eq_add 8 ⟨b0 * 256 + b1, by norm_num; ring⟩ (by omega)]

theorem sixBitGroups_cons6 (x0 x1 x2 x3 x4 x5 : Nat) (rest : List Nat) :
    sixBitGroups (x0 :: x1 :: x2 :: x3 :: x4 :: x5 :: rest) =
      (x0 * 32 + x1 * 16 + x2 * 8 + x3 * 4 + x4 * 2 + x5) :: sixBitGroups rest := rfl

theorem sixBitGroups_rem4 (x0 x1 x2 x3 : Nat) :
    sixBitGroups [x0, x1, x2, x3] =
      [(2 * (2 * (2 * (2 * 0 + x0) + x1) + x2) + x3) <<< 2] := rfl

theorem sixBitGroups_rem2 (x0 x1 : Nat) :
    sixBitGroups [x0, x1] = [(2 * (2 * 0 + x0) + x1) <<< 4] := rfl

set_option maxHeartbeats 1600000 in
/-- The Go chunked encoder agrees with the bit-stream description of
unpadded base64url on every byte sequence. -/
theorem b64EncodeChars_eq_bits : ∀ (n : Nat) (bs : List Nat), bs.length ≤ n →
    (∀ b ∈ bs, b < 256) →
    b64EncodeChars bs = (sixBitGroups (bitsOfBytes bs)).map b64Char := by
  intro n
  induction n with
  | zero =>
    intro bs hlen _
    have hnil : bs = [] := List.length_eq_zero.mp (by omega)
    subst hnil
    rfl
  | succ n ih =>
    intro bs hlen hb
    match bs with
    | [] => rfl
    | [b0] =>
      have hb0 := hb b0 (by simp)
      show [b64Char (((b0 <<< 16) >>> 18) &&& 63), b64Char (((b0 <<< 16) >>> 12) &&& 63)] = _
      simp only [bitsOfBytes, byteBits, List.cons_append, List.nil_append, List.append_nil]
      rw [sixBitGroups_cons6, sixBitGroups_rem2]
      simp only [List.map_cons, List.map_nil]
      congr 1
      · refine congrArg b64Char ?_
        simp only [Nat.shiftLeft_eq, Nat.shiftRight_eq_div_pow, Nat.and_one_is_mod,
          and_63_eq_mod]
        omega
      · refine congrArg (fun x => [b64Char x]) ?_
        simp only [Nat.shiftLeft_eq, Nat.shiftRight_eq_div_pow, Nat.and_one_is_mod,
          and_63_eq_mod]
        omega
    | [b0, b1] =>
      have hb0 := hb b0 (by simp)
      have hb1 := hb b1 (by simp)
      have hn := twoBytes_eq b0 hb1
      show [b64Char ((((b0 <<< 16) ||| (b1 <<< 8)) >>> 18) &&& 63),
            b64Char ((((b0 <<< 16) ||| (b1 <<< 8)) >>> 12) &&& 63),
            b64Char ((((b0 <<< 16) ||| (b1 <<< 8)) >>> 6) &&& 63)] = _
      rw [hn]
      simp only [bitsOfBytes, byteBits, List.cons_append, List.nil_append, List.append_nil]
      rw [sixBitGroups_cons6, sixBitGroups_cons6, sixBitGroups_rem4]
      simp only [List.map_cons, List.map_nil]
      congr 1
      · refine congrArg b64Char ?_
        simp only [Nat.shiftRight_eq_div_pow, Nat.and_one_is_mod, and_63_eq_mod]
        omega
      congr 1
      · refine congrArg b64Char ?_
        simp only [Nat.shiftRight_eq_div_pow, Nat.and_one_is_mod, and_63_eq_mod]
        omega
      · refine congrArg (fun x => [b64Char x]) ?_
        simp only [Nat.shiftLeft_eq, Nat.shiftRight_eq_div_pow, Nat.and_one_is_mod,
          and_63_eq_mod]
        omega
    | b0 :: b1 :: b2 :: rest =>
      have hb0 := hb b0 (by simp)
      have hb1 := hb b1 (by simp)
      have hb2 := hb b2 (by simp)
      have hn := threeBytes_eq b0 hb1 hb2
      show b64Char ((((b0 <<< 16) ||| (b1 <<< 8) ||| b2) >>> 18) &&& 63) ::
           b64Char ((((b0 <<< 16) ||| (b1 <<< 8) ||| b2) >>> 12) &&& 63) ::
           b64Char ((((b0 <<< 16) ||| (b1 <<< 8) ||| b2) >>> 6) &&& 63) ::
           b64Char (((b0 <<< 16) ||| (b1 <<< 8) ||| b2) &&& 63) ::
           b64EncodeChars rest = _
      rw [hn]
      simp only [bitsOfBytes, byteBits, List.cons_append, List.nil_append]
      rw [sixBitGroups_cons6, sixBitGroups_cons6, sixBitGroups_cons6, sixBitGroups_cons6]
      simp only [List.map_cons]
      congr 1
      · refine congrArg b64Char ?_
        simp only [Nat.shiftRight_eq_div_pow, Nat.and_one_is_mod, and_63_eq_mod]
        omega
      congr 1
      · refine congrArg b64Char ?_
        simp only [Nat.shiftRight_eq_div_pow, Nat.and_one_is_mod, and_63_eq_mod]
        omega
      congr 1
      · refine congrArg b64Char ?_
        simp only [Nat.shiftRight_eq_div_pow, Nat.and_one_is_mod, and_63_eq_mod]
        omega
      congr 1
      · refine congrArg b64Char ?_
        simp only [Nat.shiftRight_eq_div_pow, Nat.and_one_is_mod, and_63_eq_mod]
        omega
      · exact ih rest (by simp at hlen; omega) (fun b hbm => hb b (by simp [hbm]))

theorem wordBytes_lt (x : Nat) : ∀ b ∈ wordBytes x, b < 256 := by
  intro b hb
  simp only [wordBytes, List.mem_cons, List.not_mem_nil, or_false] at hb
  rcases hb with rfl | rfl | rfl | rfl
  · exact Nat.mod_lt _ (by norm_num)
  · exact Nat.mod_lt _ (by norm_num)
  · exact Nat.mod_lt _ (by norm_num)
  · exact Nat.mod_lt _ (by norm_num)

theorem sha256_bytes_lt (msg : List Nat) : ∀ b ∈ sha256 msg, b < 256 := by
  have key : ∀ st : Sha256State, ∀ b ∈ wordBytes st.h0 ++ wordBytes st.h1 ++ wordBytes st.h2 ++
      wordBytes st.h3 ++ wordBytes st.h4 ++ wordBytes st.h5 ++ wordBytes st.h6 ++
      wordBytes st.h7, b < 256 := by
    intro st b hb
    simp only [List.mem_append] at hb
    rcases hb with ((((((h | h) | h) | h) | h) | h) | h) | h
    all_goals exact wordBytes_lt _ b h
  intro b hb
  exact key _ b hb

theorem b64Char_ne_pad (n : Nat) : b64Char n ≠ '=' := by
  intro hcon
  unfold b64Char at hcon
  by_cases h1 : n < 26
  · rw [if_pos h1] at hcon
    have := congrArg Char.toNat hcon
    rw [toNat_ofNat_of_lt (by omega)] at this
    simp at this
    omega
  · rw [if_neg h1] at hcon
    by_cases h2 : n < 52
    · rw [if_pos h2] at hcon
      have := congrArg Char.toNat hcon
      rw [toNat_ofNat_of_lt (by omega)] at this
      simp at this
      omega
    · rw [if_neg h2] at hcon
      by_cases h3 : n < 62
      · rw [if_pos h3] at hcon
        have := congrArg Char.toNat hcon
        rw [toNat_ofNat_of_lt (by omega)] at this
        simp at this
        omega
      · rw [if_neg h3] at hcon
        by_cases h4 : n = 62
        · rw [if_pos h4] at hcon
          exact absurd hcon (by decide)
        · rw [if_neg h4] at hcon
          exact absurd hcon (by decide)

/-- C9: for every verifier string, the code challenge of the source
(`base64.RawURLEncoding.EncodeToString(sha256.Sum256(verifier))`) equals the
spec-side bit-stream definition of the unpadded base64url encoding of the
SHA-256 digest of the verifier's bytes, and the challenge contains no `=`
padding character. -/
theorem c9_codeChallenge_spec (verifier : String) :
    oauthCodeChallenge verifier = codeChallengeSpec verifier ∧
    ∀ c ∈ (oauthCodeChallenge verifier).data, c ≠ '=' := by
  have hlt := sha256_bytes_lt (utf8Encode verifier)
  have heq := b64EncodeChars_eq_bits (sha256 (utf8Encode verifier)).length
    (sha256 (utf8Encode verifier)) le_rfl hlt
  constructor
  · unfold oauthCodeChallenge codeChallengeSpec base64RawURLEncode base64urlBitsNoPad
    exact congrArg String.mk heq
  · intro c hc
    have hc' : c ∈ b64EncodeChars (sha256 (utf8Encode verifier)) := hc
    rw [heq] at hc'
    obtain ⟨m, _, rfl⟩ := List.mem_map.mp hc'
    exact b64Char_ne_pad m

end GoStarter
